import Mathlib

/-!
A shallow embedding of the reduction engine of `src/bugpoint.rs` (a
compiler-bug reducer for Cranelift IR), together with proofs about the
properties its specification states.

Modelling conventions:

* `Ebb`, `Inst` and `Value` handles are `Nat`.
* The layout is an ordered association list of blocks, each block an ordered
  list of instruction handles; the data-flow graph is a set of association
  lists keyed by handles, exactly the queries/mutations bugpoint.rs performs.
* The oracle (`CrashCheckContext::check_for_crash` for a fixed target isa) is
  a parameter `oracle : Function → CheckResult` of the driver: the source
  resets all scratch state at the start of every call, so one call's result
  is a function of the submitted `Function` alone.
* Rust panics (`unwrap`/`expect`/`assert` failures, and the driver's
  `unreachable!`) are modelled by explicit `panicked` result constructors.
* The single loop of the source that is not structurally bounded (the
  instruction-move loop of `MergeBlocks::mutate`) is modelled with explicit
  fuel; `diverge` marks the configurations in which the fuelled loop fails
  for every amount of fuel (proved below), i.e. where the Rust loop does not
  terminate.
-/

set_option linter.unusedVariables false

namespace Bugpoint

/-- `enum CheckResult` of bugpoint.rs: outcome of one oracle invocation. -/
inductive CheckResult
  | Succeed
  | Crash (msg : String)
deriving DecidableEq, Repr

/-- `enum ProgressStatus` of bugpoint.rs (the source spells `ExpandedOrShrinked`). -/
inductive ProgressStatus
  | ExpandedOrShrinked
  | Changed
  | Skip
deriving DecidableEq, Repr

/-- IR value types, as far as `ReplaceInstWithConst::const_for_type` inspects
them: `F32` and `F64` are distinguished; every other type is handled by the
`iconst` fallback. -/
inductive Ty
  | F32
  | F64
  | I32
  | I64
  | tyOther (n : Nat)
deriving DecidableEq, Repr

/-- Trap codes; the reducer only ever builds `TrapCode::User(0)`. -/
inductive TrapCode
  | user (n : Nat)
deriving DecidableEq, Repr

/-- The `GlobalValueData` constructors that kind 3 of `RemoveUnusedEntities`
pattern-matches on. -/
inductive GlobalValueData
  | VMContext
  | Symbol (n : Nat)
  | Load (base : Nat)
  | IAddImm (base : Nat) (offset : Int)
deriving DecidableEq, Repr

/-- The fields of `ExtFuncData` the reducer reads or writes (kind 1 of
`RemoveUnusedEntities` rewrites `signature`). -/
structure ExtFuncData where
  name : Nat
  signature : Nat
deriving DecidableEq, Repr

/-- The instruction payloads (`InstructionData`) bugpoint.rs distinguishes.
Every format the reducer treats uniformly is collapsed into `MultiAry`;
`Jump` and `Brz` stand for the unconditional and conditional single-target
branch formats (the `args` field of `Brz` is its variable-argument tail). -/
inductive InstructionData
  | Call (func_ref : Nat) (args : List Nat)
  | FuncAddr (func_ref : Nat)
  | CallIndirect (sig_ref : Nat) (args : List Nat)
  | StackLoad (stack_slot : Nat)
  | StackStore (arg : Nat) (stack_slot : Nat)
  | RegSpill (arg : Nat) (dst : Nat)
  | RegFill (arg : Nat) (src : Nat)
  | UnaryGlobalValue (global_value : Nat)
  | Iconst (ty : Ty) (imm : Int)
  | F32const
  | F64const
  | Trap (code : TrapCode)
  | Jump (destination : Nat) (args : List Nat)
  | Brz (arg : Nat) (destination : Nat) (args : List Nat)
  | MultiAry (op : Nat) (args : List Nat)
deriving DecidableEq, Repr

/-- The opcodes bugpoint.rs compares against (`Opcode::Iconst`,
`Opcode::F32const`, `Opcode::F64const`, `Opcode::Trap`); every other shape
keeps its own tag so that distinct formats stay distinct. -/
inductive Opcode
  | iconst
  | f32const
  | f64const
  | trapOp
  | callOp
  | funcAddrOp
  | callIndirectOp
  | stackLoadOp
  | stackStoreOp
  | regSpillOp
  | regFillOp
  | globalValueOp
  | jumpOp
  | brzOp
  | otherOp (n : Nat)
deriving DecidableEq, Repr

def InstructionData.opcode : InstructionData → Opcode
  | .Call _ _ => .callOp
  | .FuncAddr _ => .funcAddrOp
  | .CallIndirect _ _ => .callIndirectOp
  | .StackLoad _ => .stackLoadOp
  | .StackStore _ _ => .stackStoreOp
  | .RegSpill _ _ => .regSpillOp
  | .RegFill _ _ => .regFillOp
  | .UnaryGlobalValue _ => .globalValueOp
  | .Iconst _ _ => .iconst
  | .F32const => .f32const
  | .F64const => .f64const
  | .Trap _ => .trapOp
  | .Jump _ _ => .jumpOp
  | .Brz _ _ _ => .brzOp
  | .MultiAry n _ => .otherOp n

/-- Association-list lookup (first entry with the given key). -/
def lookupA {α : Type} : List (Nat × α) → Nat → Option α
  | [], _ => none
  | p :: rest, k => if p.1 = k then some p.2 else lookupA rest k

/-- Association-list update-or-append (first entry with the key is replaced;
a missing key is appended, which is how the dfg allocates fresh handles). -/
def setA {α : Type} : List (Nat × α) → Nat → α → List (Nat × α)
  | [], k, v => [(k, v)]
  | p :: rest, k, v => if p.1 = k then (k, v) :: rest else p :: setA rest k v

/-- Remove the first entry with the given key. -/
def eraseA {α : Type} : List (Nat × α) → Nat → List (Nat × α)
  | [], _ => []
  | p :: rest, k => if p.1 = k then rest else p :: eraseA rest k

/-- Remove the first occurrence of a value from a list of handles. -/
def eraseFirstNat : List Nat → Nat → List Nat
  | [], _ => []
  | a :: rest, i => if a = i then rest else a :: eraseFirstNat rest i

/-- Successor of `i` inside one block's instruction list (`None` when `i` is
the block's last instruction or absent). -/
def listNext : List Nat → Nat → Option Nat
  | [], _ => none
  | a :: rest, i => if a = i then rest.head? else listNext rest i

/-- Replace every occurrence of `i` by the list `new` (the reducer only ever
uses this on layouts whose instruction handles are distinct). -/
def replaceOccurrence : List Nat → Nat → List Nat → List Nat
  | [], _, _ => []
  | a :: rest, i, new => (if a = i then new else [a]) ++ replaceOccurrence rest i new

/-- The in-memory `Function`, restricted to the structure bugpoint.rs
observes and mutates: the layout, the dfg queries it performs, and the four
entity side tables. -/
structure Function where
  layout : List (Nat × List Nat)
  instData : List (Nat × InstructionData)
  results : List (Nat × List Nat)
  valueType : List (Nat × Ty)
  ebbParams : List (Nat × List Nat)
  valueAliases : List (Nat × Nat)
  ext_funcs : List ExtFuncData
  signatures : List Nat
  stack_slots : List Nat
  global_values : List GlobalValueData
  nextInst : Nat
deriving DecidableEq, Repr

namespace Function

/-- `func.layout.ebb_insts(e)`: the ordered instructions of block `e`. -/
def ebbInsts (f : Function) (e : Nat) : List Nat := (lookupA f.layout e).getD []

/-- `func.layout.entry_block()`: the first block of the layout. -/
def entry_block (f : Function) : Option Nat := f.layout.head?.map (·.1)

/-- `func.layout.first_inst(e)`. -/
def first_inst (f : Function) (e : Nat) : Option Nat := (f.ebbInsts e).head?

/-- `func.layout.last_inst(e)`. -/
def last_inst (f : Function) (e : Nat) : Option Nat := (f.ebbInsts e).getLast?

/-- The block ids in layout order. -/
def ebbs (f : Function) : List Nat := f.layout.map (·.1)

end Function

/-- Helper for `Function.next_ebb`: the layout successor of block `e`. -/
def nextEbbGo : List (Nat × List Nat) → Nat → Option Nat
  | [], _ => none
  | p :: rest, e => if p.1 = e then rest.head?.map (·.1) else nextEbbGo rest e

/-- Helper for `Function.next_inst`: the first layout block containing `i`. -/
def blockOfGo : List (Nat × List Nat) → Nat → Option (Nat × List Nat)
  | [], _ => none
  | p :: rest, i => if i ∈ p.2 then some p else blockOfGo rest i

namespace Function

/-- `func.layout.next_ebb(e)`: `None` when `e` is last or not in the layout. -/
def next_ebb (f : Function) (e : Nat) : Option Nat := nextEbbGo f.layout e

/-- `func.layout.next_inst(i)`: the successor of `i` inside its own block,
`None` at a block boundary or when `i` is not in the layout. -/
def next_inst (f : Function) (i : Nat) : Option Nat :=
  (blockOfGo f.layout i).bind (fun p => listNext p.2 i)

/-- `func.layout.remove_inst(i)`: unlink `i` from the block holding it (the
dfg keeps its data, exactly as in the source). -/
def remove_inst (f : Function) (i : Nat) : Function :=
  { f with layout := f.layout.map (fun p => (p.1, eraseFirstNat p.2 i)) }

/-- `func.layout.remove_ebb(e)` (all call sites first empty the block). -/
def remove_ebb (f : Function) (e : Nat) : Function :=
  { f with layout := eraseA f.layout e }

/-- `func.layout.append_inst(i, e)`. -/
def append_inst (f : Function) (i e : Nat) : Function :=
  { f with layout := f.layout.map (fun p => if p.1 = e then (p.1, p.2 ++ [i]) else p) }

/-- `func.dfg.inst_results(i)`. -/
def inst_results (f : Function) (i : Nat) : List Nat := (lookupA f.results i).getD []

/-- `func.dfg[i]`: the instruction data of `i`, when `i` was ever created. -/
def dataOf (f : Function) (i : Nat) : Option InstructionData := lookupA f.instData i

/-- `func.dfg.value_type(v)`. -/
def value_type (f : Function) (v : Nat) : Ty := (lookupA f.valueType v).getD (.tyOther 0)

/-- Overwrite the instruction data of `i` (in-place `replace`/field rewrite). -/
def setData (f : Function) (i : Nat) (d : InstructionData) : Function :=
  { f with instData := setA f.instData i d }

/-- Set the result list of `i`. -/
def setResults (f : Function) (i : Nat) (rs : List Nat) : Function :=
  { f with results := setA f.results i rs }

/-- `func.dfg.clear_results(i)`. -/
def clear_results (f : Function) (i : Nat) : Function := f.setResults i []

/-- `func.dfg.ebb_params(e)`. -/
def ebb_params (f : Function) (e : Nat) : List Nat := (lookupA f.ebbParams e).getD []

/-- `func.dfg.detach_ebb_params(e)` (the caller has already read the list). -/
def detach_ebb_params (f : Function) (e : Nat) : Function :=
  { f with ebbParams := eraseA f.ebbParams e }

/-- `func.dfg.change_to_alias(v, target)`. -/
def change_to_alias (f : Function) (v target : Nat) : Function :=
  { f with valueAliases := setA f.valueAliases v target }

end Function

/-- All instruction handles of the layout, in layout order. -/
def allInsts (f : Function) : List Nat := (f.layout.map (·.2)).flatten

/-- `ebb_count` of bugpoint.rs. -/
def ebb_count (f : Function) : Nat := f.layout.length

/-- `inst_count` of bugpoint.rs. -/
def inst_count (f : Function) : Nat := f.layout.foldr (fun b acc => b.2.length + acc) 0

/-- Result of `next_inst_ret_prev`: the caller's `(ebb, inst)` pair before the
call is the "prev" value the source returns, so only the advanced cursor (or
the end/panic outcome) needs to be reported. `panicked` is the
`.expect("no inst")` of the source firing (the next block is empty). -/
inductive NirpResult
  | atEnd
  | panicked
  | next (newEbb newInst : Nat)
deriving DecidableEq, Repr

/-- `next_inst_ret_prev` of bugpoint.rs: advance `(ebb, inst)` to the next
instruction, crossing into the first instruction of the next block when the
current block is exhausted. -/
def next_inst_ret_prev (f : Function) (ebb inst : Nat) : NirpResult :=
  match f.next_inst inst with
  | some ni => .next ebb ni
  | none =>
    match f.next_ebb ebb with
    | some ne =>
      match f.first_inst ne with
      | some fi => .next ne fi
      | none => .panicked
    | none => .atEnd

/-- Result of one `Mutator::mutate` call. `exhausted` is the source's `None`;
`produced` carries the updated mutator state (the source mutates `self`
before returning), the candidate function, the progress message and the
`ProgressStatus`. `panicked` marks a Rust panic inside `mutate`, `diverge` a
non-terminating `mutate` (see `MergeBlocks.mutate`). -/
inductive MutResult (σ : Type)
  | exhausted
  | panicked
  | diverge
  | produced (st : σ) (f : Function) (msg : String) (status : ProgressStatus)
deriving DecidableEq, Repr

/-- Cursor state of the `RemoveInst` mutator. -/
structure RemoveInst where
  ebb : Nat
  inst : Nat
deriving DecidableEq, Repr

/-- `RemoveInst::new` (`unwrap`s of the source become `Option` here; the
driver turns `none` into a panic, as the source would). -/
def RemoveInst.new (f : Function) : Option RemoveInst := do
  let e ← f.entry_block
  let i ← f.first_inst e
  pure ⟨e, i⟩

/-- `RemoveInst::mutate`: remove the instruction under the cursor; if its
block became empty, remove the block in the same step. -/
def RemoveInst.mutate (s : RemoveInst) (f : Function) : MutResult RemoveInst :=
  match next_inst_ret_prev f s.ebb s.inst with
  | .atEnd => .exhausted
  | .panicked => .panicked
  | .next ne ni =>
    let f1 := f.remove_inst s.inst
    if (f1.ebbInsts s.ebb).isEmpty then
      .produced ⟨ne, ni⟩ (f1.remove_ebb s.ebb)
        ("Remove inst inst" ++ Nat.repr s.inst ++ " and empty ebb ebb" ++ Nat.repr s.ebb)
        .ExpandedOrShrinked
    else
      .produced ⟨ne, ni⟩ f1 ("Remove inst inst" ++ Nat.repr s.inst) .ExpandedOrShrinked

/-- `ReplaceInstWithConst::const_for_type`: the constant instruction (and its
display name) that replaces an instruction with one result of type `ty`. -/
def const_for_type (ty : Ty) : InstructionData × String :=
  if ty = .F32 then (.F32const, "f32const")
  else if ty = .F64 then (.F64const, "f64const")
  else (.Iconst ty 0, "iconst")

/-- Cursor state of the `ReplaceInstWithConst` mutator. -/
structure ReplaceInstWithConst where
  ebb : Nat
  inst : Nat
deriving DecidableEq, Repr

/-- `ReplaceInstWithConst::new`. -/
def ReplaceInstWithConst.new (f : Function) : Option ReplaceInstWithConst := do
  let e ← f.entry_block
  let i ← f.first_inst e
  pure ⟨e, i⟩

/-- In-place single-result replacement: `func.dfg.replace(i)` keeps the
result value, only the instruction data changes. -/
def replaceSingle (f : Function) (i : Nat) (ty : Ty) : Function :=
  f.setData i (const_for_type ty).1

/-- The ≥2-results path of `ReplaceInstWithConst::mutate`: detach the result
list, build one constant instruction per result (each rebinding exactly that
result value) at the position of `i`, and remove `i`. -/
def replaceMulti (f : Function) (i : Nat) (rs : List Nat) : Function :=
  let newIds := (List.range rs.length).map (fun k => f.nextInst + k)
  let f1 := f.clear_results i
  let f2 := (newIds.zip rs).foldl
    (fun g p => (g.setData p.1 (const_for_type (f.value_type p.2)).1).setResults p.1 [p.2]) f1
  { f2 with
    layout := f2.layout.map (fun b => (b.1, replaceOccurrence b.2 i newIds)),
    nextInst := f.nextInst + rs.length }

/-- `ReplaceInstWithConst::mutate`. -/
def ReplaceInstWithConst.mutate (s : ReplaceInstWithConst) (f : Function) :
    MutResult ReplaceInstWithConst :=
  match next_inst_ret_prev f s.ebb s.inst with
  | .atEnd => .exhausted
  | .panicked => .panicked
  | .next ne ni =>
    match f.dataOf s.inst with
    | none => .panicked
    | some d =>
      let rs := f.inst_results s.inst
      if rs.length = 0 ∨ d.opcode = .iconst ∨ d.opcode = .f32const ∨ d.opcode = .f64const then
        .produced ⟨ne, ni⟩ f "" .Skip
      else
        match rs with
        | [] => .produced ⟨ne, ni⟩ f "" .Skip
        | [r] =>
          .produced ⟨ne, ni⟩ (replaceSingle f s.inst (f.value_type r))
            ("Replace inst inst" ++ Nat.repr s.inst ++ " with "
              ++ (const_for_type (f.value_type r)).2 ++ ".")
            .Changed
        | _ =>
          .produced ⟨ne, ni⟩ (replaceMulti f s.inst rs)
            ("Replace inst inst" ++ Nat.repr s.inst ++ " with "
              ++ String.intercalate " / " (rs.map (fun r => (const_for_type (f.value_type r)).2)))
            .ExpandedOrShrinked

/-- Cursor state of the `ReplaceInstWithTrap` mutator. -/
structure ReplaceInstWithTrap where
  ebb : Nat
  inst : Nat
deriving DecidableEq, Repr

/-- `ReplaceInstWithTrap::new`. -/
def ReplaceInstWithTrap.new (f : Function) : Option ReplaceInstWithTrap := do
  let e ← f.entry_block
  let i ← f.first_inst e
  pure ⟨e, i⟩

/-- `ReplaceInstWithTrap::mutate`: skip instructions that are already traps,
otherwise replace in place with `trap user0` (a trap has no results). -/
def ReplaceInstWithTrap.mutate (s : ReplaceInstWithTrap) (f : Function) :
    MutResult ReplaceInstWithTrap :=
  match next_inst_ret_prev f s.ebb s.inst with
  | .atEnd => .exhausted
  | .panicked => .panicked
  | .next ne ni =>
    match f.dataOf s.inst with
    | none => .panicked
    | some d =>
      let msg := "Replace inst inst" ++ Nat.repr s.inst ++ " with trap"
      if d.opcode = .trapOp then
        .produced ⟨ne, ni⟩ f msg .Skip
      else
        .produced ⟨ne, ni⟩ ((f.setData s.inst (.Trap (.user 0))).setResults s.inst []) msg .Changed

/-- Cursor state of the `RemoveEbb` mutator. -/
structure RemoveEbb where
  ebb : Nat
deriving DecidableEq, Repr

/-- `RemoveEbb::new`: starts at the entry block. -/
def RemoveEbb.new (f : Function) : Option RemoveEbb :=
  f.entry_block.map (fun e => ⟨e⟩)

/-- `RemoveEbb::mutate`: advance to the next block, drop all its instructions
(the source pops `last_inst` until the block is empty) and remove it.  The
cursor advances before acting, so the entry block is never the one removed. -/
def RemoveEbb.mutate (s : RemoveEbb) (f : Function) : MutResult RemoveEbb :=
  match f.next_ebb s.ebb with
  | none => .exhausted
  | some ne =>
    .produced ⟨ne⟩ { f with layout := eraseA f.layout ne }
      ("Remove ebb ebb" ++ Nat.repr ne) .ExpandedOrShrinked

/-- State of `RemoveUnusedEntities`: the phase index `kind`. -/
structure RemoveUnusedEntities where
  kind : Nat
deriving DecidableEq, Repr

/-- `RemoveUnusedEntities::new`. -/
def RemoveUnusedEntities.new : RemoveUnusedEntities := ⟨0⟩

/-- The indices below `len` that occur in `used` (a `PrimaryMap` iterated in
index order keeps exactly the used entries, in order). -/
def keptIndices (len : Nat) (used : List Nat) : List Nat :=
  (List.range len).filter (fun k => decide (k ∈ used))

/-- The new handle of an old handle after compaction. -/
def rankIn (kept : List Nat) (k : Nat) : Nat := kept.indexOf k

/-- The `FuncRef`s used by `Call`/`FuncAddr` instructions of the layout
(kind 0 usage scan). -/
def funcRefUses (f : Function) : List Nat :=
  (allInsts f).foldr (fun i acc =>
    match f.dataOf i with
    | some (.Call fr _) => fr :: acc
    | some (.FuncAddr fr) => fr :: acc
    | _ => acc) []

/-- Kind 0 of `RemoveUnusedEntities::mutate`: compact `ext_funcs` to the used
entries and rewrite the `func_ref` field of every using instruction. Only
instructions in the layout were scanned into the usage map, so only those
are rewritten. -/
def remapExtFuncRefs (f : Function) : Function :=
  let kept := keptIndices f.ext_funcs.length (funcRefUses f)
  let live := allInsts f
  let rw : InstructionData → InstructionData := fun d =>
    match d with
    | .Call fr args => if kept.contains fr then .Call (rankIn kept fr) args else d
    | .FuncAddr fr => if kept.contains fr then .FuncAddr (rankIn kept fr) else d
    | _ => d
  { f with
    instData := f.instData.map (fun p => if live.contains p.1 then (p.1, rw p.2) else p),
    ext_funcs := kept.map (fun k => f.ext_funcs.getD k ⟨0, 0⟩) }

/-- The `SigRef`s used by `CallIndirect` instructions of the layout and by
the `signature` field of every `ext_funcs` entry (kind 1 usage scan). -/
def sigUses (f : Function) : List Nat :=
  (allInsts f).foldr (fun i acc =>
    match f.dataOf i with
    | some (.CallIndirect sr _) => sr :: acc
    | _ => acc) (f.ext_funcs.map (·.signature))

/-- Kind 1: compact `signatures`, rewriting `CallIndirect` instructions and
the `signature` field of the surviving `ext_funcs` entries. -/
def remapSignatures (f : Function) : Function :=
  let kept := keptIndices f.signatures.length (sigUses f)
  let live := allInsts f
  let rw : InstructionData → InstructionData := fun d =>
    match d with
    | .CallIndirect sr args => if kept.contains sr then .CallIndirect (rankIn kept sr) args else d
    | _ => d
  { f with
    instData := f.instData.map (fun p => if live.contains p.1 then (p.1, rw p.2) else p),
    ext_funcs := f.ext_funcs.map (fun ef =>
      if kept.contains ef.signature then { ef with signature := rankIn kept ef.signature } else ef),
    signatures := kept.map (fun k => f.signatures.getD k 0) }

/-- The stack slots used by `StackLoad`/`StackStore`, the `dst` of `RegSpill`
and the `src` of `RegFill` (kind 2 usage scan). -/
def stackSlotUses (f : Function) : List Nat :=
  (allInsts f).foldr (fun i acc =>
    match f.dataOf i with
    | some (.StackLoad ss) => ss :: acc
    | some (.StackStore _ ss) => ss :: acc
    | some (.RegSpill _ dst) => dst :: acc
    | some (.RegFill _ src) => src :: acc
    | _ => acc) []

/-- Kind 2: compact `stack_slots` and rewrite all four using formats. -/
def remapStackSlots (f : Function) : Function :=
  let kept := keptIndices f.stack_slots.length (stackSlotUses f)
  let live := allInsts f
  let rw : InstructionData → InstructionData := fun d =>
    match d with
    | .StackLoad ss => if kept.contains ss then .StackLoad (rankIn kept ss) else d
    | .StackStore a ss => if kept.contains ss then .StackStore a (rankIn kept ss) else d
    | .RegSpill a dst => if kept.contains dst then .RegSpill a (rankIn kept dst) else d
    | .RegFill a src => if kept.contains src then .RegFill a (rankIn kept src) else d
    | _ => d
  { f with
    instData := f.instData.map (fun p => if live.contains p.1 then (p.1, rw p.2) else p),
    stack_slots := kept.map (fun k => f.stack_slots.getD k 0) }

/-- The pre-check of kind 3: `GlobalValueData::Load` and
`GlobalValueData::IAddImm` entries can form cycles, so their presence makes
the mutation give up. -/
def hasGvCycleRisk (f : Function) : Bool :=
  f.global_values.any (fun g =>
    match g with
    | .Load _ => true
    | .IAddImm _ _ => true
    | _ => false)

/-- The global values used by `UnaryGlobalValue` instructions of the layout
(kind 3 usage scan). -/
def globalValueUses (f : Function) : List Nat :=
  (allInsts f).foldr (fun i acc =>
    match f.dataOf i with
    | some (.UnaryGlobalValue gv) => gv :: acc
    | _ => acc) []

/-- Kind 3 (after the pre-check): compact `global_values` and rewrite every
`UnaryGlobalValue` instruction. -/
def remapGlobalValues (f : Function) : Function :=
  let kept := keptIndices f.global_values.length (globalValueUses f)
  let live := allInsts f
  let rw : InstructionData → InstructionData := fun d =>
    match d with
    | .UnaryGlobalValue gv => if kept.contains gv then .UnaryGlobalValue (rankIn kept gv) else d
    | _ => d
  { f with
    instData := f.instData.map (fun p => if live.contains p.1 then (p.1, rw p.2) else p),
    global_values := kept.map (fun k => f.global_values.getD k .VMContext) }

/-- `RemoveUnusedEntities::mutate`: one compaction per phase, `Changed`
status each; on kind 3 the pre-check can return `None` (without bumping
`kind`, matching the early `return None` of the source); kinds ≥ 4 are the
`_ => return None` arm. -/
def RemoveUnusedEntities.mutate (s : RemoveUnusedEntities) (f : Function) :
    MutResult RemoveUnusedEntities :=
  match s.kind with
  | 0 => .produced ⟨1⟩ (remapExtFuncRefs f) "Remove unused ext funcs" .Changed
  | 1 => .produced ⟨2⟩ (remapSignatures f) "Remove unused signatures" .Changed
  | 2 => .produced ⟨3⟩ (remapStackSlots f) "Remove unused stack slots" .Changed
  | 3 =>
    if hasGvCycleRisk f then .exhausted
    else .produced ⟨4⟩ (remapGlobalValues f) "Remove unused global values" .Changed
  | _ => .exhausted

/-- The single-target branch destination, as the control-flow graph
computation reads it. -/
def InstructionData.branchDestination : InstructionData → Option Nat
  | .Jump d _ => some d
  | .Brz _ d _ => some d
  | _ => none

/-- The variable-argument tail of an instruction
(`func.dfg.inst_variable_args`). -/
def InstructionData.variableArgs : InstructionData → List Nat
  | .Call _ args => args
  | .CallIndirect _ args => args
  | .Jump _ args => args
  | .Brz _ _ args => args
  | _ => []

/-- `func.dfg.inst_variable_args(i)`. -/
def Function.inst_variable_args (f : Function) (i : Nat) : List Nat :=
  ((f.dataOf i).map InstructionData.variableArgs).getD []

/-- `ControlFlowGraph::compute` followed by `pred_iter(e)`: the `(block,
branch instruction)` pairs, in layout order, whose branch targets `e`. -/
def cfgPreds (f : Function) (e : Nat) : List (Nat × Nat) :=
  f.layout.foldr (fun b acc =>
    (b.2.filter (fun i =>
      decide ((f.dataOf i).bind InstructionData.branchDestination = some e))).map
        (fun i => (b.1, i)) ++ acc) []

/-- The `while let Some(inst) = func.layout.first_inst(ebb)` loop of
`MergeBlocks::mutate`, with explicit fuel: each step unlinks the first
instruction of `src` and appends it to `dst`.  When `src ≠ dst` the list of
`src` shrinks by one per step, so fuel `|insts src|` completes; when
`src = dst` and `src` is non-empty the loop never terminates (proved below),
which the caller reports as `diverge`. -/
def moveLoop : Nat → Function → Nat → Nat → Option Function
  | 0, f, src, _ =>
    match f.first_inst src with
    | none => some f
    | some _ => none
  | n + 1, f, src, dst =>
    match f.first_inst src with
    | none => some f
    | some i => moveLoop n ((f.remove_inst i).append_inst i dst) src dst

/-- Cursor state of `MergeBlocks`: the current block and the predecessor of
the last successful merge (for `did_crash` rollback). -/
structure MergeBlocks where
  ebb : Nat
  prev_ebb : Option Nat
deriving DecidableEq, Repr

/-- `MergeBlocks::new`. -/
def MergeBlocks.new (f : Function) : Option MergeBlocks :=
  f.entry_block.map (fun e => ⟨e, none⟩)

/-- `MergeBlocks::mutate` (without the optional "basic-blocks" feature):
advance to the next block `e`; `Skip` unless `e` has exactly one
control-flow predecessor `(P, B)`; otherwise alias each non-identical
`(param, arg)` pair, remove the branch `B`, move the instructions of `e` to
the end of `P`, remove `e` and record `P` for `did_crash`.  The length
assert of the source is `panicked`; a unique predecessor that is the block
itself makes the move loop spin forever (`diverge`). -/
def MergeBlocks.mutate (s : MergeBlocks) (f : Function) : MutResult MergeBlocks :=
  match f.next_ebb s.ebb with
  | none => .exhausted
  | some e =>
    let ps := cfgPreds f e
    if ps.length ≠ 1 then
      .produced ⟨e, s.prev_ebb⟩ f ("did nothing for ebb" ++ Nat.repr e) .Skip
    else
      match ps with
      | [(predEbb, predInst)] =>
        if (f.ebb_params e).length ≠ (f.inst_variable_args predInst).length then
          .panicked
        else
          let params := f.ebb_params e
          let args := f.inst_variable_args predInst
          let f1 := (params.zip args).foldl
            (fun g pa => if pa.1 ≠ pa.2 then g.change_to_alias pa.1 pa.2 else g)
            (f.detach_ebb_params e)
          let f2 := f1.remove_inst predInst
          match moveLoop (f2.ebbInsts e).length f2 e predEbb with
          | none => .diverge
          | some f3 =>
            .produced ⟨e, some predEbb⟩ (f3.remove_ebb e)
              ("merged ebb" ++ Nat.repr predEbb ++ " and ebb" ++ Nat.repr e)
              .ExpandedOrShrinked
      | _ => .panicked

/-- `MergeBlocks::did_crash`: move the cursor back to the predecessor of the
accepted merge (`self.prev_ebb.unwrap()`; `none` would be a panic). -/
def MergeBlocks.did_crash (s : MergeBlocks) : Option MergeBlocks :=
  s.prev_ebb.map (fun p => { s with ebb := p })

/-- The `Box<dyn Mutator>` of the driver: the sum of the six mutator states. -/
inductive MutatorState
  | removeInst (s : RemoveInst)
  | replaceConst (s : ReplaceInstWithConst)
  | replaceTrap (s : ReplaceInstWithTrap)
  | removeEbb (s : RemoveEbb)
  | removeUnused (s : RemoveUnusedEntities)
  | mergeBlocks (s : MergeBlocks)
deriving DecidableEq, Repr

/-- Re-wrap a mutator-specific result into the sum. -/
def MutResult.mapSt {σ τ : Type} (g : σ → τ) : MutResult σ → MutResult τ
  | .exhausted => .exhausted
  | .panicked => .panicked
  | .diverge => .diverge
  | .produced st f m s => .produced (g st) f m s

/-- Dynamic dispatch of `Mutator::mutate`. -/
def MutatorState.mutate : MutatorState → Function → MutResult MutatorState
  | .removeInst s, f => (s.mutate f).mapSt .removeInst
  | .replaceConst s, f => (s.mutate f).mapSt .replaceConst
  | .replaceTrap s, f => (s.mutate f).mapSt .replaceTrap
  | .removeEbb s, f => (s.mutate f).mapSt .removeEbb
  | .removeUnused s, f => (s.mutate f).mapSt .removeUnused
  | .mergeBlocks s, f => (s.mutate f).mapSt .mergeBlocks

/-- Dynamic dispatch of `Mutator::did_crash` (default implementation is a
no-op; only `MergeBlocks` overrides it, and its `unwrap` can panic). -/
def MutatorState.did_crash : MutatorState → Option MutatorState
  | .mergeBlocks s => s.did_crash.map .mergeBlocks
  | st => some st

/-- The `match phase` of the driver: construct a fresh mutator over the
current function. `none` is a constructor `unwrap` panicking. -/
def mkMutator (phase : Nat) (f : Function) : Option MutatorState :=
  match phase with
  | 0 => (RemoveInst.new f).map .removeInst
  | 1 => (ReplaceInstWithConst.new f).map .replaceConst
  | 2 => (ReplaceInstWithTrap.new f).map .replaceTrap
  | 3 => (RemoveEbb.new f).map .removeEbb
  | 4 => some (.removeUnused RemoveUnusedEntities.new)
  | _ => (MergeBlocks.new f).map .mergeBlocks

/-- Outcome of the inner candidate loop / the phase loop. -/
inductive LoopRes
  | normal (f : Function) (keep : Bool)
  | panicked
  | diverge
deriving DecidableEq, Repr

/-- The `for _ in 0..10000` candidate loop of `reduce`, for one mutator:
ask for a candidate (`break` on `None`), skip `Skip` candidates without
consulting the oracle, adopt a candidate iff the oracle still crashes, and
record progress when an adopted candidate had status `ExpandedOrShrinked`. -/
def innerLoop (oracle : Function → CheckResult) :
    Nat → MutatorState → Function → Bool → LoopRes
  | 0, _, f, keep => .normal f keep
  | n + 1, st, f, keep =>
    match st.mutate f with
    | .exhausted => .normal f keep
    | .panicked => .panicked
    | .diverge => .diverge
    | .produced st2 f2 _ status =>
      if status = .Skip then innerLoop oracle n st2 f keep
      else
        match oracle f2 with
        | .Succeed => innerLoop oracle n st2 f keep
        | .Crash _ =>
          match st2.did_crash with
          | none => .panicked
          | some st3 =>
            innerLoop oracle n st3 f2 (keep || decide (status = .ExpandedOrShrinked))

/-- The `loop { match phase ... }` of `reduce`: run the six phases in order
(the `_ => break` arm corresponds to the list running out). -/
def phasesLoop (oracle : Function → CheckResult) :
    List Nat → Function → Bool → LoopRes
  | [], f, keep => .normal f keep
  | ph :: rest, f, keep =>
    match mkMutator ph f with
    | none => .panicked
    | some st =>
      match innerLoop oracle 10000 st f keep with
      | .panicked => .panicked
      | .diverge => .diverge
      | .normal f2 keep2 => phasesLoop oracle rest f2 keep2

/-- Outcome of the outer pass loop. -/
inductive PassRes
  | done (f : Function)
  | panicked
  | diverge
deriving DecidableEq, Repr

/-- The `for pass_idx in 0..100` loop of `reduce`: each pass resets
`should_keep_reducing`, runs the six phases, and the loop stops at the first
pass without an adopted `ExpandedOrShrinked` candidate (or after 100
passes). -/
def passLoop (oracle : Function → CheckResult) : Nat → Function → PassRes
  | 0, f => .done f
  | n + 1, f =>
    match phasesLoop oracle [0, 1, 2, 3, 4, 5] f false with
    | .panicked => .panicked
    | .diverge => .diverge
    | .normal f2 keep => if keep then passLoop oracle n f2 else .done f2

/-- `DataFlowGraph::resolve_aliases(v)`: chase the alias table; the fuel
`|aliases| + 1` mirrors the bounded loop of the source, which panics
("alias loop") when the chain does not bottom out. -/
def resolve_value (aliases : List (Nat × Nat)) : Nat → Nat → Option Nat
  | 0, _ => none
  | n + 1, v =>
    match lookupA aliases v with
    | none => some v
    | some v2 => resolve_value aliases n v2

/-- Rewrite every value argument of an instruction through `g`
(`resolve_aliases_in_arguments`). -/
def InstructionData.mapArgsM (g : Nat → Option Nat) :
    InstructionData → Option InstructionData
  | .Call fr args => (args.mapM g).map (.Call fr)
  | .FuncAddr fr => some (.FuncAddr fr)
  | .CallIndirect sr args => (args.mapM g).map (.CallIndirect sr)
  | .StackLoad ss => some (.StackLoad ss)
  | .StackStore a ss => (g a).map (fun a2 => .StackStore a2 ss)
  | .RegSpill a dst => (g a).map (fun a2 => .RegSpill a2 dst)
  | .RegFill a src => (g a).map (fun a2 => .RegFill a2 src)
  | .UnaryGlobalValue gv => some (.UnaryGlobalValue gv)
  | .Iconst ty imm => some (.Iconst ty imm)
  | .F32const => some .F32const
  | .F64const => some .F64const
  | .Trap c => some (.Trap c)
  | .Jump d args => (args.mapM g).map (.Jump d)
  | .Brz a d args => do pure (.Brz (← g a) d (← args.mapM g))
  | .MultiAry op args => (args.mapM g).map (.MultiAry op)

/-- `resolve_aliases` of bugpoint.rs: for every instruction of the layout,
rewrite each operand to its canonical (non-aliased) value.  `none` is the
"alias loop" panic of the dfg. -/
def resolve_aliases (f : Function) : Option Function :=
  (allInsts f).foldlM
    (fun g i =>
      match g.dataOf i with
      | none => some g
      | some d =>
        (d.mapArgsM (resolve_value g.valueAliases (g.valueAliases.length + 1))).map
          (fun d2 => g.setData i d2))
    f

/-- Outcome of `reduce`.  `err`/`ok` are the `Result` values of the source;
`panicked` covers every Rust panic inside `reduce` (mutator-constructor
`unwrap`s, mutator panics, `did_crash` `unwrap`, the alias-loop panic and
the final-check `unreachable!`); `diverge` marks a non-terminating run. -/
inductive ReduceOutcome
  | err (msg : String)
  | ok (f : Function) (crash_msg : String)
  | panicked
  | diverge
deriving DecidableEq, Repr

/-- `reduce` of bugpoint.rs.  `oracle` stands for
`CrashCheckContext::check_for_crash` with the given target isa (the context
clears all scratch state per call, so the result depends only on the
submitted function); `verbose` only affects progress printing in the
source. -/
def reduce (oracle : Function → CheckResult) (func : Function) (verbose : Bool) :
    ReduceOutcome :=
  match oracle func with
  | .Succeed => .err "Given function compiled successfully or gave a verifier error."
  | .Crash _ =>
    match resolve_aliases func with
    | none => .panicked
    | some f1 =>
      match passLoop oracle 100 f1 with
      | .panicked => .panicked
      | .diverge => .diverge
      | .done f2 =>
        match oracle f2 with
        | .Succeed => .panicked
        | .Crash m => .ok f2 m

/-- Outcome of running the verifier under `catch_unwind`.  The verifier
(`cranelift_codegen::verifier::verify_function`) is not part of this
repository's sources; its behaviour on a given function is left abstract. -/
inductive VerifierOutcome
  | ok
  | errorFound
  | panicSeen
deriving DecidableEq, Repr

/-- A panic payload (`Box<dyn Any>`): a `&'static str`, a `String`, or
anything else. -/
inductive PanicPayload
  | staticStr (s : String)
  | ownedString (s : String)
  | opaquePayload
deriving DecidableEq, Repr

/-- Outcome of running `Context::compile_and_emit` under `catch_unwind`. -/
inductive BackendOutcome
  | completed
  | panicSeen (payload : PanicPayload)
deriving DecidableEq, Repr

/-- `get_panic_string` of bugpoint.rs: downcast to `&'static str`, then to
`String`, else the generic sentinel. -/
def get_panic_string : PanicPayload → String
  | .staticStr s => s
  | .ownedString s => s
  | .opaquePayload => "Box<Any>"

/-- `CrashCheckContext::check_for_crash` outside test mode, as a function of
the verifier and backend outcomes on the submitted function: verifier errors
and verifier panics are `Succeed`; a completed backend run is `Succeed`; a
backend panic is `Crash` with the extracted message.  Both foreign runs are
wrapped in `catch_unwind`, so the function is total — no panic reaches the
caller — and the panic hook is restored before returning. -/
def check_for_crash (verify : Function → VerifierOutcome)
    (backend : Function → BackendOutcome) (func : Function) : CheckResult :=
  match verify func with
  | .errorFound => .Succeed
  | .panicSeen => .Succeed
  | .ok =>
    match backend func with
    | .completed => .Succeed
    | .panicSeen p => .Crash (get_panic_string p)

/-- Does the layout contain a `Call`-format instruction?  (`CallIndirect`
does not count, matching the `InstructionData::Call { .. }` match of the
source.) -/
def contains_call (f : Function) : Bool :=
  f.layout.any (fun b => b.2.any (fun i =>
    match f.dataOf i with
    | some (.Call _ _) => true
    | _ => false))

/-- `CrashCheckContext::check_for_crash` in test mode (`#[cfg(test)]`): the
verifier still runs first and its error/panic outcomes still yield
`Succeed`; after that the backend is replaced by the call-instruction
check. -/
def check_for_crash_test (verify : Function → VerifierOutcome) (func : Function) :
    CheckResult :=
  match verify func with
  | .errorFound => .Succeed
  | .panicSeen => .Succeed
  | .ok => if contains_call func then .Crash "test crash" else .Succeed

/-- The function with no blocks at all (its `layout` is empty). -/
def emptyFunc : Function :=
  { layout := []
    instData := []
    results := []
    valueType := []
    ebbParams := []
    valueAliases := []
    ext_funcs := []
    signatures := []
    stack_slots := []
    global_values := []
    nextInst := 0 }

/-- The test-mode oracle with a verifier that accepts everything: exactly the
"testing seam" oracle of the specification. -/
def testOracle : Function → CheckResult := check_for_crash_test (fun _ => .ok)

/-- Two blocks: the entry `ebb0` holds `jump ebb1`; `ebb1` holds a call and a
return-like instruction.  Removing the jump empties the entry block, and the
test oracle still crashes on the remainder. -/
def c2Input : Function :=
  { layout := [(0, [1]), (1, [2, 3])]
    instData := [(1, .Jump 1 []), (2, .Call 0 []), (3, .MultiAry 0 [])]
    results := []
    valueType := []
    ebbParams := []
    valueAliases := []
    ext_funcs := [⟨0, 0⟩]
    signatures := [0]
    stack_slots := []
    global_values := []
    nextInst := 4 }

/-- What `reduce` makes of `c2Input` under the test oracle: the original
entry block `ebb0` is gone. -/
def c2Result : Function := { c2Input with layout := [(1, [2, 3])] }

/-- Total number of result values attached to layout instructions. -/
def resultValueCount (f : Function) : Nat :=
  (allInsts f).foldr (fun i acc => (f.inst_results i).length + acc) 0

/-- An oracle that crashes exactly on functions carrying at least two result
values: it keeps a two-result instruction (or its expansion) alive and
rejects every candidate that loses a result. -/
def c3Oracle : Function → CheckResult :=
  fun f => if 2 ≤ resultValueCount f then .Crash "two results" else .Succeed

/-- One block with a two-result instruction `inst1` followed by a
return-like `inst2`. -/
def c3Input : Function :=
  { layout := [(0, [1, 2])]
    instData := [(1, .MultiAry 0 []), (2, .MultiAry 1 [])]
    results := [(1, [10, 11])]
    valueType := [(10, .I32), (11, .I32)]
    ebbParams := []
    valueAliases := []
    ext_funcs := []
    signatures := []
    stack_slots := []
    global_values := []
    nextInst := 3 }

/-- What `reduce` makes of `c3Input` under `c3Oracle`: the accepted
`ReplaceInstWithConst` expansion replaced the two-result `inst1` by two
`iconst` instructions, raising the instruction count from 2 to 3. -/
def c3Result : Function :=
  { c3Input with
    layout := [(0, [3, 4, 2])]
    instData := [(1, .MultiAry 0 []), (2, .MultiAry 1 []),
                 (3, .Iconst .I32 0), (4, .Iconst .I32 0)]
    results := [(1, []), (3, [10]), (4, [11])]
    nextInst := 5 }

/-- The entry `ebb0` holds a return-like instruction; the unreachable block
`ebb1` holds a call followed by `jump ebb1` — a block whose unique
control-flow predecessor is itself. -/
def c4Input : Function :=
  { layout := [(0, [1]), (1, [2, 3])]
    instData := [(1, .MultiAry 0 []), (2, .Call 0 []), (3, .Jump 1 [])]
    results := []
    valueType := []
    ebbParams := []
    valueAliases := []
    ext_funcs := [⟨0, 0⟩]
    signatures := [0]
    stack_slots := []
    global_values := []
    nextInst := 4 }

/-- An oracle (i.e. a backend) that crashes exactly on `c4Input`: every
destructive candidate is rejected, so the self-looping block survives until
`MergeBlocks` reaches it. -/
def c4Oracle : Function → CheckResult :=
  fun f => if f = c4Input then .Crash "boom" else .Succeed

/-- `c4Input` at the entry of the instruction-move loop of
`MergeBlocks::mutate`: the branch `inst3` has been unlinked, and the loop is
about to move the instructions of `ebb1` into `ebb1` itself. -/
def c4Mid : Function := { c4Input with layout := [(0, [1]), (1, [2])] }

/-- No block of the layout is empty (invariant 4 of the specification,
required by `next_inst_ret_prev`). -/
def no_empty_blocks (f : Function) : Bool :=
  f.layout.all (fun p => !p.2.isEmpty)

/-- A single block holding one `Call` instruction. -/
def oneCallFunc : Function :=
  { layout := [(0, [1])]
    instData := [(1, .Call 0 [])]
    results := []
    valueType := []
    ebbParams := []
    valueAliases := []
    ext_funcs := [⟨0, 0⟩]
    signatures := [0]
    stack_slots := []
    global_values := []
    nextInst := 2 }

/-- A function whose `global_values` table has a `Load` entry (the kind 3
pre-check of `RemoveUnusedEntities` gives up on it). -/
def gvLoadFunc : Function := { emptyFunc with global_values := [.Load 0] }

/-- Two blocks: the entry ends in `jump ebb1` and `ebb1` holds one
return-like instruction; `ebb1` has the entry as its unique predecessor, so
`MergeBlocks` merges them. -/
def mergeableFunc : Function :=
  { layout := [(0, [1]), (1, [2])]
    instData := [(1, .Jump 1 []), (2, .MultiAry 0 [])]
    results := []
    valueType := []
    ebbParams := []
    valueAliases := []
    ext_funcs := []
    signatures := []
    stack_slots := []
    global_values := []
    nextInst := 3 }

/-! ### Association-list and layout lemmas -/

theorem head?_mem {α : Type} {l : List α} {x : α} (h : l.head? = some x) : x ∈ l := by
  cases l with
  | nil => simp at h
  | cons a rest =>
    obtain rfl : a = x := Option.some.inj h
    exact List.mem_cons_self _ _

theorem lookupA_mem {α : Type} {l : List (Nat × α)} {k : Nat} {v : α}
    (h : lookupA l k = some v) : (k, v) ∈ l := by
  induction l with
  | nil => simp [lookupA] at h
  | cons p rest ih =>
    by_cases hp : p.1 = k
    · rw [lookupA, if_pos hp] at h
      obtain rfl : p.2 = v := Option.some.inj h
      obtain ⟨a, b⟩ := p
      obtain rfl : a = k := hp
      exact List.mem_cons_self _ _
    · rw [lookupA, if_neg hp] at h
      exact List.mem_cons_of_mem _ (ih h)

theorem lookupA_isSome_of_mem_keys {α : Type} {l : List (Nat × α)} {k : Nat}
    (h : k ∈ l.map (·.1)) : ∃ v, lookupA l k = some v := by
  induction l with
  | nil => simp at h
  | cons p rest ih =>
    by_cases hp : p.1 = k
    · exact ⟨p.2, by rw [lookupA, if_pos hp]⟩
    · rw [lookupA, if_neg hp]
      apply ih
      rcases List.mem_map.mp h with ⟨q, hq, hqk⟩
      rcases List.mem_cons.mp hq with hq | hq
      · exact absurd (hq ▸ hqk) hp
      · exact List.mem_map.mpr ⟨q, hq, hqk⟩

theorem lookupA_map_val {α β : Type} (g : α → β) (l : List (Nat × α)) (k : Nat) :
    lookupA (l.map (fun p => (p.1, g p.2))) k = (lookupA l k).map g := by
  induction l with
  | nil => simp [lookupA]
  | cons p rest ih =>
    by_cases hp : p.1 = k
    · rw [List.map_cons, lookupA, lookupA]
      simp only [hp, if_pos rfl]
      rfl
    · rw [List.map_cons, lookupA, lookupA, if_neg hp, if_neg hp, ih]

theorem lookupA_unique_of_nodup {α : Type} {l : List (Nat × α)} {p : Nat × α}
    (hnd : (l.map (·.1)).Nodup) (hm : p ∈ l) : lookupA l p.1 = some p.2 := by
  induction l with
  | nil => simp at hm
  | cons q rest ih =>
    rcases List.mem_cons.mp hm with hm | hm
    · subst hm
      rw [lookupA, if_pos rfl]
    · rw [lookupA]
      by_cases hq : q.1 = p.1
      · exfalso
        rw [List.map_cons, List.nodup_cons] at hnd
        exact hnd.1 (hq ▸ List.mem_map.mpr ⟨p, hm, rfl⟩)
      · rw [if_neg hq]
        exact ih (by rw [List.map_cons, List.nodup_cons] at hnd; exact hnd.2) hm

theorem eraseA_subset {α : Type} {l : List (Nat × α)} {k : Nat} {q : Nat × α}
    (h : q ∈ eraseA l k) : q ∈ l := by
  induction l with
  | nil => simp [eraseA] at h
  | cons p rest ih =>
    rw [eraseA] at h
    by_cases hp : p.1 = k
    · rw [if_pos hp] at h
      exact List.mem_cons_of_mem _ h
    · rw [if_neg hp] at h
      rcases List.mem_cons.mp h with h | h
      · exact h ▸ List.mem_cons_self _ _
      · exact List.mem_cons_of_mem _ (ih h)

theorem not_mem_eraseA_of_nodup {α : Type} {l : List (Nat × α)} {k : Nat} {v : α}
    (hnd : (l.map (·.1)).Nodup) (h : (k, v) ∈ eraseA l k) : False := by
  induction l with
  | nil => simp [eraseA] at h
  | cons p rest ih =>
    rw [List.map_cons, List.nodup_cons] at hnd
    rw [eraseA] at h
    by_cases hp : p.1 = k
    · rw [if_pos hp] at h
      exact hnd.1 (hp ▸ List.mem_map.mpr ⟨(k, v), h, rfl⟩)
    · rw [if_neg hp] at h
      rcases List.mem_cons.mp h with h | h
      · exact hp (congrArg Prod.fst h.symm)
      · exact ih hnd.2 h

theorem eraseA_length_le {α : Type} (l : List (Nat × α)) (k : Nat) :
    (eraseA l k).length ≤ l.length := by
  induction l with
  | nil => simp [eraseA]
  | cons p rest ih =>
    rw [eraseA]
    by_cases hp : p.1 = k
    · rw [if_pos hp]
      exact Nat.le_succ_of_le (Nat.le_refl _)
    · rw [if_neg hp]
      exact Nat.succ_le_succ ih

theorem eraseA_head_of_ne {α : Type} {l : List (Nat × α)} {k : Nat} {p : Nat × α}
    (hh : l.head? = some p) (hne : p.1 ≠ k) : (eraseA l k).head? = some p := by
  cases l with
  | nil => simp at hh
  | cons q rest =>
    obtain rfl : q = p := Option.some.inj hh
    rw [eraseA, if_neg hne]
    rfl

theorem eraseFirstNat_of_not_mem {l : List Nat} {i : Nat} (h : i ∉ l) :
    eraseFirstNat l i = l := by
  induction l with
  | nil => rfl
  | cons a rest ih =>
    have hai : ¬a = i := fun hc => h (by rw [← hc]; exact List.mem_cons_self _ _)
    rw [eraseFirstNat, if_neg hai, ih (fun hc => h (List.mem_cons_of_mem _ hc))]

theorem eraseFirstNat_cons_self (l : List Nat) (i : Nat) :
    eraseFirstNat (i :: l) i = l := by
  rw [eraseFirstNat, if_pos rfl]

theorem nextEbbGo_mem {l : List (Nat × List Nat)} {e ne : Nat}
    (h : nextEbbGo l e = some ne) : ne ∈ l.map (·.1) := by
  induction l with
  | nil => simp [nextEbbGo] at h
  | cons p rest ih =>
    rw [nextEbbGo] at h
    by_cases hp : p.1 = e
    · rw [if_pos hp] at h
      rcases Option.map_eq_some'.mp h with ⟨q, hq, hqe⟩
      exact List.mem_cons_of_mem _ (hqe ▸ List.mem_map.mpr ⟨q, head?_mem hq, rfl⟩)
    · rw [if_neg hp] at h
      exact List.mem_cons_of_mem _ (ih h)

theorem nextEbbGo_ne_head {l : List (Nat × List Nat)} {e ne : Nat} {p : Nat × List Nat}
    (hnd : (l.map (·.1)).Nodup) (h : nextEbbGo l e = some ne) (hh : l.head? = some p) :
    p.1 ≠ ne := by
  cases l with
  | nil => simp [nextEbbGo] at h
  | cons q rest =>
    have hqp : q = p := Option.some.inj hh
    subst hqp
    rw [List.map_cons, List.nodup_cons] at hnd
    rw [nextEbbGo] at h
    by_cases hp : q.1 = e
    · rw [if_pos hp] at h
      rcases Option.map_eq_some'.mp h with ⟨r, hr, hre⟩
      intro hc
      exact hnd.1 (by rw [hc, ← hre]; exact List.mem_map.mpr ⟨r, head?_mem hr, rfl⟩)
    · rw [if_neg hp] at h
      intro hc
      exact hnd.1 (by rw [hc]; exact nextEbbGo_mem h)

theorem eraseFirstNat_subset {l : List Nat} {i j : Nat} (h : j ∈ eraseFirstNat l i) :
    j ∈ l := by
  induction l with
  | nil => simp [eraseFirstNat] at h
  | cons a rest ih =>
    rw [eraseFirstNat] at h
    by_cases ha : a = i
    · rw [if_pos ha] at h
      exact List.mem_cons_of_mem _ h
    · rw [if_neg ha] at h
      rcases List.mem_cons.mp h with h | h
      · exact h ▸ List.mem_cons_self _ _
      · exact List.mem_cons_of_mem _ (ih h)

theorem map_fst_keyfix {α : Type} (g : (Nat × α) → (Nat × α))
    (hg : ∀ p, (g p).1 = p.1) (l : List (Nat × α)) :
    (l.map g).map (·.1) = l.map (·.1) := by
  induction l with
  | nil => rfl
  | cons p rest ih => simp only [List.map_cons, hg, ih]

theorem lookupA_map_entry_ite {α : Type} (t : α → α) (e : Nat) (l : List (Nat × α)) (k : Nat) :
    lookupA (l.map (fun p => if p.1 = e then (p.1, t p.2) else p)) k =
      if k = e then (lookupA l k).map t else lookupA l k := by
  induction l with
  | nil => by_cases hk : k = e <;> simp [lookupA, hk]
  | cons p rest ih =>
    have h1 : (if p.1 = e then (p.1, t p.2) else p).1 = p.1 := by split <;> rfl
    by_cases hpk : p.1 = k
    · rw [List.map_cons, lookupA, h1, if_pos hpk, lookupA, if_pos hpk]
      by_cases hke : k = e
      · rw [if_pos hke, if_pos (hpk.trans hke)]
        rfl
      · rw [if_neg hke, if_neg (fun hc => hke (hpk ▸ hc))]
    · rw [List.map_cons, lookupA, h1, if_neg hpk, lookupA, if_neg hpk, ih]

theorem lookupA_eraseA_ne {α : Type} {l : List (Nat × α)} {e k : Nat} (h : k ≠ e) :
    lookupA (eraseA l e) k = lookupA l k := by
  induction l with
  | nil => rfl
  | cons p rest ih =>
    rw [eraseA]
    by_cases hpe : p.1 = e
    · rw [if_pos hpe, lookupA, if_neg (fun hc => h (by rw [← hc]; exact hpe))]
    · rw [if_neg hpe, lookupA, lookupA, ih]

/-! ### Effect of the layout mutations on `ebbInsts`, `ebbs`, `entry_block` -/

theorem ebbInsts_remove_inst (f : Function) (i k : Nat) :
    (f.remove_inst i).ebbInsts k = eraseFirstNat (f.ebbInsts k) i := by
  show (lookupA (f.layout.map fun p => (p.1, eraseFirstNat p.2 i)) k).getD [] =
    eraseFirstNat ((lookupA f.layout k).getD []) i
  rw [lookupA_map_val (fun l2 => eraseFirstNat l2 i) f.layout k]
  cases lookupA f.layout k with
  | none => rfl
  | some l => rfl

theorem ebbInsts_append_inst (f : Function) (i e k : Nat) :
    (f.append_inst i e).ebbInsts k =
      if k = e then ((lookupA f.layout k).map (· ++ [i])).getD [] else f.ebbInsts k := by
  show (lookupA (f.layout.map fun p => if p.1 = e then (p.1, p.2 ++ [i]) else p) k).getD [] = _
  rw [lookupA_map_entry_ite (fun l2 => l2 ++ [i]) e f.layout k]
  by_cases hk : k = e
  · rw [if_pos hk, if_pos hk]
  · rw [if_neg hk, if_neg hk]
    rfl

theorem ebbs_remove_inst (f : Function) (i : Nat) : (f.remove_inst i).ebbs = f.ebbs :=
  map_fst_keyfix (fun p => (p.1, eraseFirstNat p.2 i)) (fun _ => rfl) f.layout

theorem ebbs_append_inst (f : Function) (i e : Nat) : (f.append_inst i e).ebbs = f.ebbs :=
  map_fst_keyfix (fun p => if p.1 = e then (p.1, p.2 ++ [i]) else p)
    (fun p => by show (if p.1 = e then (p.1, p.2 ++ [i]) else p).1 = p.1; split <;> rfl)
    f.layout

theorem entry_block_eq_head_ebbs (f : Function) : f.entry_block = f.ebbs.head? := by
  rw [Function.entry_block, Function.ebbs, List.head?_map]

theorem ebb_count_eq_length_ebbs (f : Function) : ebb_count f = f.ebbs.length := by
  rw [ebb_count, Function.ebbs, List.length_map]

theorem ebb_count_remove_inst (f : Function) (i : Nat) :
    ebb_count (f.remove_inst i) = ebb_count f := by
  rw [ebb_count_eq_length_ebbs, ebb_count_eq_length_ebbs, ebbs_remove_inst]

theorem ebb_count_append_inst (f : Function) (i e : Nat) :
    ebb_count (f.append_inst i e) = ebb_count f := by
  rw [ebb_count_eq_length_ebbs, ebb_count_eq_length_ebbs, ebbs_append_inst]

/-! ### The `MergeBlocks` instruction-move loop -/

theorem moveLoop_self_none (src : Nat) :
    ∀ (n : Nat) (f : Function), f.ebbInsts src ≠ [] → moveLoop n f src src = none := by
  intro n
  induction n with
  | zero =>
    intro f hne
    rw [moveLoop]
    cases hh : f.first_inst src with
    | none =>
      exact absurd (by rwa [Function.first_inst, List.head?_eq_none_iff] at hh) hne
    | some i => rfl
  | succ n ih =>
    intro f hne
    rw [moveLoop]
    cases hh : f.first_inst src with
    | none =>
      exact absurd (by rwa [Function.first_inst, List.head?_eq_none_iff] at hh) hne
    | some i =>
      apply ih
      rw [Function.first_inst] at hh
      cases hl : f.ebbInsts src with
      | nil => rw [hl] at hh; cases hh
      | cons a tl =>
        rw [hl] at hh
        have ha : a = i := Option.some.inj hh
        subst ha
        have hsome : lookupA f.layout src = some (a :: tl) := by
          rw [Function.ebbInsts] at hl
          cases hc : lookupA f.layout src with
          | none => rw [hc] at hl; simp at hl
          | some l =>
            rw [hc] at hl
            simp only [Option.getD_some] at hl
            rw [hl]
        have hrem : lookupA (f.remove_inst a).layout src = some tl := by
          show lookupA (f.layout.map fun p => (p.1, eraseFirstNat p.2 a)) src = some tl
          rw [lookupA_map_val (fun l2 => eraseFirstNat l2 a) f.layout src, hsome,
            Option.map_some', eraseFirstNat_cons_self]
        rw [ebbInsts_append_inst, if_pos rfl, hrem]
        simp

/-! ### `ebb_count` monotonicity through the driver -/

theorem ebb_count_remove_ebb (f : Function) (e : Nat) :
    ebb_count (f.remove_ebb e) ≤ ebb_count f :=
  eraseA_length_le f.layout e

theorem moveLoop_some_ebbs :
    ∀ (n : Nat) (f : Function) (src dst : Nat) (f3 : Function),
      moveLoop n f src dst = some f3 → f3.ebbs = f.ebbs := by
  intro n
  induction n with
  | zero =>
    intro f src dst f3 h
    rw [moveLoop] at h
    cases hh : f.first_inst src with
    | none =>
      rw [hh] at h
      exact (Option.some.inj h).symm ▸ rfl
    | some i => rw [hh] at h; cases h
  | succ n ih =>
    intro f src dst f3 h
    rw [moveLoop] at h
    cases hh : f.first_inst src with
    | none =>
      rw [hh] at h
      exact (Option.some.inj h).symm ▸ rfl
    | some i =>
      rw [hh] at h
      rw [ih _ _ _ _ h, ebbs_append_inst, ebbs_remove_inst]

theorem layout_foldl_step (β : Type) (step : Function → β → Function)
    (hstep : ∀ g b, (step g b).layout = g.layout) :
    ∀ (l : List β) (f : Function), (l.foldl step f).layout = f.layout := by
  intro l
  induction l with
  | nil => intro f; rfl
  | cons b rest ih => intro f; rw [List.foldl_cons, ih, hstep]

theorem mapSt_produced {σ τ : Type} {g : σ → τ} {r : MutResult σ} {st : τ}
    {f : Function} {m : String} {s : ProgressStatus}
    (h : r.mapSt g = .produced st f m s) :
    ∃ st0, r = .produced st0 f m s ∧ st = g st0 := by
  cases r with
  | exhausted => cases h
  | panicked => cases h
  | diverge => cases h
  | produced a b c d =>
    injection h with h1 h2 h3 h4
    exact ⟨a, by rw [h2, h3, h4], h1.symm⟩

theorem ebb_count_removeInst_mutate {s0 : RemoveInst} {f : Function} {st : RemoveInst}
    {f2 : Function} {m : String} {s : ProgressStatus}
    (h : s0.mutate f = .produced st f2 m s) : ebb_count f2 ≤ ebb_count f := by
  rw [RemoveInst.mutate] at h
  cases hn : next_inst_ret_prev f s0.ebb s0.inst with
  | atEnd => rw [hn] at h; cases h
  | panicked => rw [hn] at h; cases h
  | next ne ni =>
    simp only [hn] at h
    by_cases hE : ((f.remove_inst s0.inst).ebbInsts s0.ebb).isEmpty
    · rw [if_pos hE] at h
      injection h with h1 h2 h3 h4
      rw [← h2]
      exact le_trans (ebb_count_remove_ebb _ _) (le_of_eq (ebb_count_remove_inst f s0.inst))
    · rw [if_neg hE] at h
      injection h with h1 h2 h3 h4
      rw [← h2]
      exact le_of_eq (ebb_count_remove_inst f s0.inst)

theorem ebb_count_replaceMulti (f : Function) (i : Nat) (rs : List Nat) :
    ebb_count (replaceMulti f i rs) = ebb_count f := by
  rw [ebb_count, ebb_count]
  simp only [replaceMulti, List.length_map]
  rw [layout_foldl_step (Nat × Nat)
    (fun g p => (g.setData p.1 (const_for_type (f.value_type p.2)).1).setResults p.1 [p.2])
    (fun g b => rfl)]
  rfl

theorem ebb_count_replaceConst_mutate {s0 : ReplaceInstWithConst} {f : Function}
    {st : ReplaceInstWithConst} {f2 : Function} {m : String} {s : ProgressStatus}
    (h : s0.mutate f = .produced st f2 m s) : ebb_count f2 ≤ ebb_count f := by
  rw [ReplaceInstWithConst.mutate] at h
  cases hn : next_inst_ret_prev f s0.ebb s0.inst with
  | atEnd => rw [hn] at h; cases h
  | panicked => rw [hn] at h; cases h
  | next ne ni =>
    simp only [hn] at h
    cases hd : f.dataOf s0.inst with
    | none => simp only [hd] at h; cases h
    | some d =>
      simp only [hd] at h
      by_cases hskip : (f.inst_results s0.inst).length = 0 ∨ d.opcode = .iconst
          ∨ d.opcode = .f32const ∨ d.opcode = .f64const
      · rw [if_pos hskip] at h
        injection h with h1 h2 h3 h4
        rw [← h2]
      · rw [if_neg hskip] at h
        cases hr : f.inst_results s0.inst with
        | nil =>
          rw [hr] at h
          injection h with h1 h2 h3 h4
          rw [← h2]
        | cons r rtl =>
          cases rtl with
          | nil =>
            rw [hr] at h
            injection h with h1 h2 h3 h4
            rw [← h2]
            exact le_of_eq rfl
          | cons r2 rtl2 =>
            rw [hr] at h
            injection h with h1 h2 h3 h4
            rw [← h2]
            exact le_of_eq (ebb_count_replaceMulti f s0.inst (r :: r2 :: rtl2))

theorem ebb_count_replaceTrap_mutate {s0 : ReplaceInstWithTrap} {f : Function}
    {st : ReplaceInstWithTrap} {f2 : Function} {m : String} {s : ProgressStatus}
    (h : s0.mutate f = .produced st f2 m s) : ebb_count f2 ≤ ebb_count f := by
  rw [ReplaceInstWithTrap.mutate] at h
  cases hn : next_inst_ret_prev f s0.ebb s0.inst with
  | atEnd => rw [hn] at h; cases h
  | panicked => rw [hn] at h; cases h
  | next ne ni =>
    simp only [hn] at h
    cases hd : f.dataOf s0.inst with
    | none => simp only [hd] at h; cases h
    | some d =>
      simp only [hd] at h
      by_cases ht : d.opcode = .trapOp
      · rw [if_pos ht] at h
        injection h with h1 h2 h3 h4
        rw [← h2]
      · rw [if_neg ht] at h
        injection h with h1 h2 h3 h4
        rw [← h2]
        exact le_of_eq rfl

theorem ebb_count_removeEbb_mutate {s0 : RemoveEbb} {f : Function} {st : RemoveEbb}
    {f2 : Function} {m : String} {s : ProgressStatus}
    (h : s0.mutate f = .produced st f2 m s) : ebb_count f2 ≤ ebb_count f := by
  rw [RemoveEbb.mutate] at h
  cases hn : f.next_ebb s0.ebb with
  | none => rw [hn] at h; cases h
  | some ne =>
    simp only [hn] at h
    injection h with h1 h2 h3 h4
    rw [← h2]
    exact eraseA_length_le f.layout ne

theorem ebb_count_removeUnused_mutate {s0 : RemoveUnusedEntities} {f : Function}
    {st : RemoveUnusedEntities} {f2 : Function} {m : String} {s : ProgressStatus}
    (h : s0.mutate f = .produced st f2 m s) : ebb_count f2 ≤ ebb_count f := by
  rw [RemoveUnusedEntities.mutate] at h
  match hk : s0.kind with
  | 0 =>
    rw [hk] at h
    injection h with h1 h2 h3 h4
    rw [← h2]
    exact le_of_eq rfl
  | 1 =>
    rw [hk] at h
    injection h with h1 h2 h3 h4
    rw [← h2]
    exact le_of_eq rfl
  | 2 =>
    rw [hk] at h
    injection h with h1 h2 h3 h4
    rw [← h2]
    exact le_of_eq rfl
  | 3 =>
    rw [hk] at h
    by_cases hg : hasGvCycleRisk f
    · rw [if_pos hg] at h; cases h
    · rw [if_neg hg] at h
      injection h with h1 h2 h3 h4
      rw [← h2]
      exact le_of_eq rfl
  | (n + 4) =>
    rw [hk] at h
    cases h

theorem ebb_count_mergeBlocks_mutate {s0 : MergeBlocks} {f : Function} {st : MergeBlocks}
    {f2 : Function} {m : String} {s : ProgressStatus}
    (h : s0.mutate f = .produced st f2 m s) : ebb_count f2 ≤ ebb_count f := by
  rw [MergeBlocks.mutate] at h
  cases hn : f.next_ebb s0.ebb with
  | none => rw [hn] at h; cases h
  | some e =>
    simp only [hn] at h
    by_cases hp : (cfgPreds f e).length ≠ 1
    · rw [if_pos hp] at h
      injection h with h1 h2 h3 h4
      rw [← h2]
    · rw [if_neg hp] at h
      cases hps : cfgPreds f e with
      | nil => rw [hps] at h; cases h
      | cons pr tl =>
        cases tl with
        | cons pr2 tl2 => rw [hps] at h; cases h
        | nil =>
          obtain ⟨predEbb, predInst⟩ := pr
          simp only [hps] at h
          by_cases hlen : (f.ebb_params e).length ≠ (f.inst_variable_args predInst).length
          · rw [if_pos hlen] at h
            cases h
          · rw [if_neg hlen] at h
            split at h
            · cases h
            · rename_i f3 hml
              injection h with h1 h2 h3 h4
              rw [← h2]
              refine le_trans (ebb_count_remove_ebb f3 e) (le_of_eq ?_)
              have hms := moveLoop_some_ebbs _ _ _ _ _ hml
              rw [ebb_count_eq_length_ebbs, hms, ebbs_remove_inst]
              rw [Function.ebbs]
              rw [layout_foldl_step (Nat × Nat)
                (fun g pa => if pa.1 ≠ pa.2 then g.change_to_alias pa.1 pa.2 else g)
                (fun g b => by
                  show (if b.1 ≠ b.2 then g.change_to_alias b.1 b.2 else g).layout = g.layout
                  split <;> rfl)]
              rw [← Function.ebbs, ← ebb_count_eq_length_ebbs]
              rfl

theorem ebb_count_mutate_le {st : MutatorState} {f : Function} {st2 : MutatorState}
    {f2 : Function} {m : String} {s : ProgressStatus}
    (h : st.mutate f = .produced st2 f2 m s) : ebb_count f2 ≤ ebb_count f := by
  cases st with
  | removeInst s0 =>
    obtain ⟨st0, hr, -⟩ := mapSt_produced h
    exact ebb_count_removeInst_mutate hr
  | replaceConst s0 =>
    obtain ⟨st0, hr, -⟩ := mapSt_produced h
    exact ebb_count_replaceConst_mutate hr
  | replaceTrap s0 =>
    obtain ⟨st0, hr, -⟩ := mapSt_produced h
    exact ebb_count_replaceTrap_mutate hr
  | removeEbb s0 =>
    obtain ⟨st0, hr, -⟩ := mapSt_produced h
    exact ebb_count_removeEbb_mutate hr
  | removeUnused s0 =>
    obtain ⟨st0, hr, -⟩ := mapSt_produced h
    exact ebb_count_removeUnused_mutate hr
  | mergeBlocks s0 =>
    obtain ⟨st0, hr, -⟩ := mapSt_produced h
    exact ebb_count_mergeBlocks_mutate hr

theorem innerLoop_ebb_count (oracle : Function → CheckResult) :
    ∀ (n : Nat) (st : MutatorState) (f : Function) (keep : Bool) (f2 : Function) (keep2 : Bool),
      innerLoop oracle n st f keep = .normal f2 keep2 → ebb_count f2 ≤ ebb_count f := by
  intro n
  induction n with
  | zero =>
    intro st f keep f2 keep2 h
    rw [innerLoop] at h
    injection h with h1 h2
    rw [← h1]
  | succ n ih =>
    intro st f keep f2 keep2 h
    rw [innerLoop] at h
    cases hm : st.mutate f with
    | exhausted =>
      simp only [hm] at h
      injection h with h1 h2
      rw [← h1]
    | panicked => simp only [hm] at h; cases h
    | diverge => simp only [hm] at h; cases h
    | produced st2 fc mm s =>
      simp only [hm] at h
      by_cases hs : s = .Skip
      · rw [if_pos hs] at h
        exact ih _ _ _ _ _ h
      · rw [if_neg hs] at h
        cases ho : oracle fc with
        | Succeed =>
          simp only [ho] at h
          exact ih _ _ _ _ _ h
        | Crash mc =>
          simp only [ho] at h
          cases hd : st2.did_crash with
          | none => simp only [hd] at h; cases h
          | some st3 =>
            simp only [hd] at h
            exact le_trans (ih _ _ _ _ _ h) (ebb_count_mutate_le hm)

theorem phasesLoop_ebb_count (oracle : Function → CheckResult) :
    ∀ (phs : List Nat) (f : Function) (keep : Bool) (f2 : Function) (keep2 : Bool),
      phasesLoop oracle phs f keep = .normal f2 keep2 → ebb_count f2 ≤ ebb_count f := by
  intro phs
  induction phs with
  | nil =>
    intro f keep f2 keep2 h
    rw [phasesLoop] at h
    injection h with h1 h2
    rw [← h1]
  | cons ph rest ih =>
    intro f keep f2 keep2 h
    rw [phasesLoop] at h
    cases hmk : mkMutator ph f with
    | none => simp only [hmk] at h; cases h
    | some st =>
      simp only [hmk] at h
      cases hil : innerLoop oracle 10000 st f keep with
      | panicked => simp only [hil] at h; cases h
      | diverge => simp only [hil] at h; cases h
      | normal fm keepm =>
        simp only [hil] at h
        exact le_trans (ih _ _ _ _ h) (innerLoop_ebb_count oracle _ _ _ _ _ _ hil)

theorem passLoop_ebb_count (oracle : Function → CheckResult) :
    ∀ (n : Nat) (f : Function) (f2 : Function),
      passLoop oracle n f = .done f2 → ebb_count f2 ≤ ebb_count f := by
  intro n
  induction n with
  | zero =>
    intro f f2 h
    rw [passLoop] at h
    injection h with h1
    rw [← h1]
  | succ n ih =>
    intro f f2 h
    rw [passLoop] at h
    cases hpl : phasesLoop oracle [0, 1, 2, 3, 4, 5] f false with
    | panicked => simp only [hpl] at h; cases h
    | diverge => simp only [hpl] at h; cases h
    | normal fm keep =>
      simp only [hpl] at h
      by_cases hk : keep = true
      · rw [if_pos hk] at h
        exact le_trans (ih _ _ h) (phasesLoop_ebb_count oracle _ _ _ _ _ hpl)
      · rw [if_neg hk] at h
        injection h with h1
        rw [← h1]
        exact phasesLoop_ebb_count oracle _ _ _ _ _ hpl

theorem resolve_aliases_layout :
    ∀ (l : List Nat) (f f1 : Function),
      l.foldlM
        (fun g i =>
          match g.dataOf i with
          | none => some g
          | some d =>
            (d.mapArgsM (resolve_value g.valueAliases (g.valueAliases.length + 1))).map
              (fun d2 => g.setData i d2))
        f = some f1 →
      f1.layout = f.layout := by
  intro l
  induction l with
  | nil =>
    intro f f1 h
    rw [List.foldlM_nil] at h
    rw [Option.some.inj h]
  | cons i rest ih =>
    intro f f1 h
    rw [List.foldlM_cons] at h
    cases hd : f.dataOf i with
    | none =>
      simp only [hd, Option.some_bind] at h
      exact ih _ _ h
    | some d =>
      simp only [hd] at h
      cases hmap : d.mapArgsM (resolve_value f.valueAliases (f.valueAliases.length + 1)) with
      | none => simp only [hmap] at h; cases h
      | some d2 =>
        simp only [hmap, Option.map_some', Option.some_bind] at h
        rw [ih _ _ h]
        rfl

/-! ### Claim C1 -/

/-- C1 (amended): `reduce` returns `Err` iff the initial oracle call on the
input returns `Succeed`; and whenever it returns `Ok((G, m))`, the final
oracle call on `G` returns `Crash(m)` — the crash message is the oracle's
message on the final accepted function, not on the original.  (`reduce` need
not return `Ok` when the initial call crashes: on degenerate inputs a
mutator-constructor `unwrap` panics instead, see the counterexample.) -/
theorem c1_reduce_err_iff_and_final_crash_msg (oracle : Function → CheckResult)
    (func : Function) (verbose : Bool) :
    ((∃ m, reduce oracle func verbose = .err m) ↔ oracle func = .Succeed)
    ∧ (∀ G m, reduce oracle func verbose = .ok G m → oracle G = .Crash m) := by
  constructor
  · constructor
    · rintro ⟨m, hm⟩
      cases ho : oracle func with
      | Succeed => rfl
      | Crash m0 =>
        simp only [reduce, ho] at hm
        cases hr : resolve_aliases func with
        | none => simp only [hr] at hm; cases hm
        | some f1 =>
          simp only [hr] at hm
          cases hp : passLoop oracle 100 f1 with
          | panicked => simp only [hp] at hm; cases hm
          | diverge => simp only [hp] at hm; cases hm
          | done f2 =>
            simp only [hp] at hm
            cases ho2 : oracle f2 with
            | Succeed => simp only [ho2] at hm; cases hm
            | Crash m2 => simp only [ho2] at hm; cases hm
    · intro ho
      exact ⟨_, by rw [reduce, ho]⟩
  · intro G m h
    cases ho : oracle func with
    | Succeed => rw [reduce, ho] at h; cases h
    | Crash m0 =>
      simp only [reduce, ho] at h
      cases hr : resolve_aliases func with
      | none => simp only [hr] at h; cases h
      | some f1 =>
        simp only [hr] at h
        cases hp : passLoop oracle 100 f1 with
        | panicked => simp only [hp] at h; cases h
        | diverge => simp only [hp] at h; cases h
        | done f2 =>
          simp only [hp] at h
          cases ho2 : oracle f2 with
          | Succeed => simp only [ho2] at h; cases h
          | Crash m2 =>
            simp only [ho2] at h
            obtain ⟨rfl, rfl⟩ : f2 = G ∧ m2 = m := by
              cases h
              exact ⟨rfl, rfl⟩
            exact ho2

/-- C1 counterexample: an oracle (backend) that crashes on everything, and
the function with no blocks.  The initial oracle call crashes, yet `reduce`
returns neither `Ok` nor `Err`: `RemoveInst::new` panics on
`entry_block().unwrap()`, refuting "otherwise it returns Ok((G, m))". -/
theorem c1_counterexample :
    (fun _ => CheckResult.Crash "x") emptyFunc = .Crash "x"
      ∧ reduce (fun _ => CheckResult.Crash "x") emptyFunc false = .panicked :=
  ⟨rfl, rfl⟩

/-- C1 witness: the amended theorem applied to an always-succeeding oracle. -/
theorem c1_witness :
    ∃ m, reduce (fun _ => CheckResult.Succeed) emptyFunc false = .err m :=
  (c1_reduce_err_iff_and_final_crash_msg (fun _ => .Succeed) emptyFunc false).1.mpr rfl

/-! ### Claim C5 -/

/-- C5: `check_for_crash` classifies every outcome — a verifier error gives
`Succeed`, a verifier panic gives `Succeed`, a completed backend run gives
`Succeed`, and a backend panic gives `Crash(m)` where `m` is the panic
payload when it is a string (`&'static str` or `String`) and the sentinel
`"Box<Any>"` otherwise; the result is always one of `Succeed`/`Crash`, so no
panic propagates to the caller. -/
theorem c5_check_for_crash_classification (verify : Function → VerifierOutcome)
    (backend : Function → BackendOutcome) (func : Function) :
    (check_for_crash verify backend func = .Succeed
      ∨ ∃ m, check_for_crash verify backend func = .Crash m)
    ∧ (verify func = .errorFound → check_for_crash verify backend func = .Succeed)
    ∧ (verify func = .panicSeen → check_for_crash verify backend func = .Succeed)
    ∧ (verify func = .ok → backend func = .completed →
        check_for_crash verify backend func = .Succeed)
    ∧ (∀ p, verify func = .ok → backend func = .panicSeen p →
        check_for_crash verify backend func = .Crash (get_panic_string p))
    ∧ (∀ s, get_panic_string (.staticStr s) = s)
    ∧ (∀ s, get_panic_string (.ownedString s) = s)
    ∧ get_panic_string .opaquePayload = "Box<Any>" := by
  refine ⟨?_, ?_, ?_, ?_, ?_, fun s => rfl, fun s => rfl, rfl⟩
  · rw [check_for_crash]
    cases verify func with
    | errorFound => exact Or.inl rfl
    | panicSeen => exact Or.inl rfl
    | ok =>
      cases backend func with
      | completed => exact Or.inl rfl
      | panicSeen p => exact Or.inr ⟨_, rfl⟩
  · intro h
    rw [check_for_crash, h]
  · intro h
    rw [check_for_crash, h]
  · intro hv hb
    rw [check_for_crash, hv, hb]
  · intro p hv hb
    rw [check_for_crash, hv, hb]

/-- C5 witness: a backend panicking with a static string payload. -/
theorem c5_witness :
    check_for_crash (fun _ => .ok) (fun _ => .panicSeen (.staticStr "boom")) emptyFunc
      = .Crash "boom" :=
  (c5_check_for_crash_classification (fun _ => .ok)
    (fun _ => .panicSeen (.staticStr "boom")) emptyFunc).2.2.2.2.1 (.staticStr "boom") rfl rfl

/-! ### Claim C9 -/

/-- C9 (amended): in test mode the verifier still runs first, so for every
function the verifier accepts, `check_for_crash` returns
`Crash("test crash")` iff the function contains a call instruction; when the
verifier errors or panics on the function, the result is `Succeed`
regardless of calls. -/
theorem c9_test_oracle_iff_call (verify : Function → VerifierOutcome) (func : Function) :
    (verify func = .ok →
      (check_for_crash_test verify func = .Crash "test crash" ↔ contains_call func = true))
    ∧ (verify func ≠ .ok → check_for_crash_test verify func = .Succeed) := by
  constructor
  · intro hv
    rw [check_for_crash_test, hv]
    by_cases hc : contains_call func
    · rw [if_pos hc]
      simp [hc]
    · rw [if_neg hc]
      simp
      simpa using hc
  · intro hv
    rw [check_for_crash_test]
    cases hvv : verify func with
    | errorFound => rfl
    | panicSeen => rfl
    | ok => exact absurd hvv hv

/-- C9 counterexample: a function consisting of a single call instruction on
which the verifier reports an error.  The test-mode oracle returns `Succeed`
even though the function contains a call, refuting the unconditional
"`Crash("test crash")` iff `F` contains a call". -/
theorem c9_counterexample :
    contains_call oneCallFunc = true
      ∧ check_for_crash_test (fun _ => .errorFound) oneCallFunc = .Succeed :=
  ⟨rfl, rfl⟩

/-- C9 witness: the amended theorem applied with a trivial verifier. -/
theorem c9_witness :
    check_for_crash_test (fun _ => .ok) oneCallFunc = .Crash "test crash" :=
  ((c9_test_oracle_iff_call (fun _ => .ok) oneCallFunc).1 rfl).mpr rfl

/-! ### Claim C8 -/

/-- C8: a fresh `RemoveUnusedEntities` mutator yields at most four `Some`
results, one per phase kind 0,1,2,3 in that order, each `Changed`; after
phase 3 every call returns `None`; and in phase 3 the mutator returns `None`
without compacting anything when a global value of kind `Load` or `IAddImm`
is present. -/
theorem c8_remove_unused_entities_phases (f : Function) :
    RemoveUnusedEntities.mutate ⟨0⟩ f
      = .produced ⟨1⟩ (remapExtFuncRefs f) "Remove unused ext funcs" .Changed
    ∧ RemoveUnusedEntities.mutate ⟨1⟩ f
      = .produced ⟨2⟩ (remapSignatures f) "Remove unused signatures" .Changed
    ∧ RemoveUnusedEntities.mutate ⟨2⟩ f
      = .produced ⟨3⟩ (remapStackSlots f) "Remove unused stack slots" .Changed
    ∧ (hasGvCycleRisk f = true → RemoveUnusedEntities.mutate ⟨3⟩ f = .exhausted)
    ∧ (hasGvCycleRisk f = false →
        RemoveUnusedEntities.mutate ⟨3⟩ f
          = .produced ⟨4⟩ (remapGlobalValues f) "Remove unused global values" .Changed)
    ∧ (∀ k, 4 ≤ k → RemoveUnusedEntities.mutate ⟨k⟩ f = .exhausted) := by
  refine ⟨rfl, rfl, rfl, ?_, ?_, ?_⟩
  · intro h
    simp [RemoveUnusedEntities.mutate, h]
  · intro h
    simp [RemoveUnusedEntities.mutate, h]
  · intro k hk
    match k, hk with
    | (n + 4), _ => rfl

/-- C8 witness: the `Load` pre-check firing, a successful phase 3, and the
exhausted state after it. -/
theorem c8_witness :
    RemoveUnusedEntities.mutate ⟨3⟩ gvLoadFunc = .exhausted
      ∧ RemoveUnusedEntities.mutate ⟨3⟩ emptyFunc
          = .produced ⟨4⟩ (remapGlobalValues emptyFunc) "Remove unused global values" .Changed
      ∧ RemoveUnusedEntities.mutate ⟨4⟩ emptyFunc = .exhausted :=
  ⟨(c8_remove_unused_entities_phases gvLoadFunc).2.2.2.1 rfl,
   (c8_remove_unused_entities_phases emptyFunc).2.2.2.2.1 rfl,
   (c8_remove_unused_entities_phases emptyFunc).2.2.2.2.2 4 (Nat.le_refl 4)⟩

/-! ### Claim C3 -/

/-- C3 (amended): whenever `reduce` returns `Ok((G, m))`, the block count of
`G` is at most the block count of the input — no mutator ever adds a block,
and the driver only adopts mutator outputs.  The instruction-count half of
the original claim is false: an accepted multi-result
`ReplaceInstWithConst` expansion raises `inst_count`, and nothing forces a
later pass to undo it (see the counterexample). -/
theorem c3_ebb_count_monotone (oracle : Function → CheckResult) (func : Function)
    (verbose : Bool) (G : Function) (m : String)
    (h : reduce oracle func verbose = .ok G m) : ebb_count G ≤ ebb_count func := by
  cases ho : oracle func with
  | Succeed => rw [reduce, ho] at h; cases h
  | Crash m0 =>
    simp only [reduce, ho] at h
    cases hr : resolve_aliases func with
    | none => simp only [hr] at h; cases h
    | some f1 =>
      simp only [hr] at h
      cases hp : passLoop oracle 100 f1 with
      | panicked => simp only [hp] at h; cases h
      | diverge => simp only [hp] at h; cases h
      | done f2 =>
        simp only [hp] at h
        cases ho2 : oracle f2 with
        | Succeed => simp only [ho2] at h; cases h
        | Crash m2 =>
          simp only [ho2] at h
          obtain ⟨rfl, -⟩ : f2 = G ∧ m2 = m := by
            cases h
            exact ⟨rfl, rfl⟩
          have h1 : ebb_count f2 ≤ ebb_count f1 := passLoop_ebb_count oracle 100 f1 f2 hp
          have h2 : f1.layout = func.layout := resolve_aliases_layout (allInsts func) func f1 hr
          calc ebb_count f2 ≤ ebb_count f1 := h1
            _ = ebb_count func := by rw [ebb_count, ebb_count, h2]

/-- C3 counterexample: under an oracle that crashes exactly on functions
carrying two result values, `reduce` adopts the multi-result
`ReplaceInstWithConst` expansion and the fixpoint keeps it: the result has
`inst_count` 3 while the input had 2, refuting
`inst_count(reduce(F)) ≤ inst_count(F)`. -/
theorem c3_counterexample :
    reduce c3Oracle c3Input false = .ok c3Result "two results"
      ∧ inst_count c3Input = 2
      ∧ inst_count c3Result = 3
      ∧ ¬inst_count c3Result ≤ inst_count c3Input :=
  ⟨rfl, rfl, rfl, by decide⟩

/-- C3 witness: the amended theorem applied to the counterexample run. -/
theorem c3_witness : ebb_count c3Result ≤ ebb_count c3Input :=
  c3_ebb_count_monotone c3Oracle c3Input false c3Result "two results" rfl

/-! ### Claim C4 -/

/-- C4: the claim that `reduce` terminates on every input is refuted by the
code: on `c4Input` — whose unreachable block `ebb1` is its own unique
control-flow predecessor — with a backend that crashes exactly on the
original function, every destructive candidate is rejected and the sixth
phase reaches `MergeBlocks::mutate` on `ebb1`; its instruction-move `while`
loop then moves instructions from `ebb1` into `ebb1` forever.  The first
conjunct evaluates `reduce` to the divergence marker; the second shows the
marker is honest: the fuelled move loop fails at the reached configuration
(`c4Mid`, source and destination both `ebb1`) for every amount of fuel. -/
theorem c4_reduce_diverges_on_self_predecessor :
    reduce c4Oracle c4Input false = .diverge
      ∧ (∀ fuel, moveLoop fuel c4Mid 1 1 = none) :=
  ⟨rfl, fun fuel => moveLoop_self_none 1 fuel c4Mid (by decide)⟩

/-! ### Claim C2 -/

theorem head?_ebbs_remove_ebb (g : Function) (e : Nat) (h : g.ebbs.head? ≠ some e) :
    (g.remove_ebb e).ebbs.head? = g.ebbs.head? := by
  rw [Function.ebbs, Function.ebbs, List.head?_map, List.head?_map]
  show ((eraseA g.layout e).head?).map (·.1) = (g.layout.head?).map (·.1)
  cases hh : g.layout.head? with
  | none =>
    have hnil : g.layout = [] := List.head?_eq_none_iff.mp hh
    rw [hnil]
    rfl
  | some p =>
    have hpne : p.1 ≠ e := by
      intro hc
      apply h
      rw [Function.ebbs, List.head?_map, hh]
      simp [hc]
    rw [eraseA_head_of_ne hh hpne]

theorem next_ebb_ne_entry {f : Function} {x e : Nat} (hnd : f.ebbs.Nodup)
    (h : f.next_ebb x = some e) : f.ebbs.head? ≠ some e := by
  rw [Function.ebbs, List.head?_map]
  cases hh : f.layout.head? with
  | none => simp
  | some p =>
    have hne := nextEbbGo_ne_head (show (f.layout.map (·.1)).Nodup from hnd) h hh
    simp [hne]

/-- C2 (amended): `RemoveEbb` and `MergeBlocks` never remove the entry block
— their cursors advance past the entry before acting, so every candidate
they produce has the same entry block as the input.  The original claim is
false for `RemoveInst`: when the entry block becomes empty, `RemoveInst`
removes it in the same step, the engine may accept the candidate, and the
entry block of `F` is then absent from `reduce(F)` (see the
counterexample). -/
theorem c2_entry_preserved_by_block_mutators (f : Function) (s : RemoveEbb)
    (s2 : MergeBlocks) (hnd : f.ebbs.Nodup) :
    (∀ st f2 m stat, RemoveEbb.mutate s f = .produced st f2 m stat →
      f2.entry_block = f.entry_block)
    ∧ (∀ st f2 m stat, MergeBlocks.mutate s2 f = .produced st f2 m stat →
      f2.entry_block = f.entry_block) := by
  constructor
  · intro st f2 m stat h
    rw [RemoveEbb.mutate] at h
    cases hn : f.next_ebb s.ebb with
    | none => rw [hn] at h; cases h
    | some ne =>
      simp only [hn] at h
      injection h with h1 h2 h3 h4
      rw [← h2]
      rw [entry_block_eq_head_ebbs, entry_block_eq_head_ebbs]
      exact head?_ebbs_remove_ebb f ne (next_ebb_ne_entry hnd hn)
  · intro st f2 m stat h
    rw [MergeBlocks.mutate] at h
    cases hn : f.next_ebb s2.ebb with
    | none => rw [hn] at h; cases h
    | some e =>
      simp only [hn] at h
      by_cases hp : (cfgPreds f e).length ≠ 1
      · rw [if_pos hp] at h
        injection h with h1 h2 h3 h4
        rw [← h2]
      · rw [if_neg hp] at h
        cases hps : cfgPreds f e with
        | nil => rw [hps] at h; cases h
        | cons pr tl =>
          cases tl with
          | cons pr2 tl2 => rw [hps] at h; cases h
          | nil =>
            obtain ⟨P, B⟩ := pr
            simp only [hps] at h
            by_cases hlen : (f.ebb_params e).length ≠ (f.inst_variable_args B).length
            · rw [if_pos hlen] at h
              cases h
            · rw [if_neg hlen] at h
              split at h
              · cases h
              · rename_i f3 hml
                injection h with h1 h2 h3 h4
                rw [← h2]
                have hebbs : f3.ebbs = f.ebbs := by
                  rw [moveLoop_some_ebbs _ _ _ _ _ hml, ebbs_remove_inst, Function.ebbs,
                    layout_foldl_step (Nat × Nat)
                      (fun g pa => if pa.1 ≠ pa.2 then g.change_to_alias pa.1 pa.2 else g)
                      (fun g b => by
                        show (if b.1 ≠ b.2 then g.change_to_alias b.1 b.2 else g).layout = g.layout
                        split <;> rfl)]
                  rfl
                rw [entry_block_eq_head_ebbs, entry_block_eq_head_ebbs]
                rw [head?_ebbs_remove_ebb f3 e
                  (by rw [hebbs]; exact next_ebb_ne_entry hnd hn)]
                rw [hebbs]

/-- C2 counterexample: under the specification's test oracle, removing the
single `jump` of the entry block empties it; `RemoveInst` deletes the entry
block in the same step, the remainder still contains the call, so the
candidate is accepted — the entry block `ebb0` of the input is absent from
the reduced function. -/
theorem c2_counterexample :
    c2Input.entry_block = some 0
      ∧ reduce testOracle c2Input false = .ok c2Result "test crash"
      ∧ (0 : Nat) ∉ c2Result.ebbs :=
  ⟨rfl, rfl, by decide⟩

/-- C2 witness: the amended theorem applied to a concrete `RemoveEbb` step. -/
theorem c2_witness :
    ({ c2Input with layout := [(0, [1])] } : Function).entry_block = c2Input.entry_block :=
  (c2_entry_preserved_by_block_mutators c2Input ⟨0⟩ ⟨0, none⟩ (by decide)).1
    ⟨1⟩ { c2Input with layout := [(0, [1])] } "Remove ebb ebb1" .ExpandedOrShrinked rfl

/-! ### Claim C10 -/

theorem no_empty_blocks_iff (f : Function) :
    no_empty_blocks f = true ↔ ∀ p ∈ f.layout, p.2 ≠ [] := by
  rw [no_empty_blocks, List.all_eq_true]
  constructor
  · intro h p hp
    simpa using h p hp
  · intro h p hp
    simpa using h p hp

theorem replaceOccurrence_ne_nil {l : List Nat} {i : Nat} {new : List Nat}
    (hl : l ≠ []) (hnew : new ≠ []) : replaceOccurrence l i new ≠ [] := by
  cases l with
  | nil => exact absurd rfl hl
  | cons a rest =>
    rw [replaceOccurrence]
    by_cases ha : a = i
    · rw [if_pos ha]
      simp [hnew]
    · rw [if_neg ha]
      simp

/-- The entry of the layout containing instruction `i` is unique when the
instruction handles of the layout are globally distinct. -/
theorem unique_containing_entry {f : Function} {e i : Nat} {le : List Nat}
    (hin : (allInsts f).Nodup) (hle : lookupA f.layout e = some le) (hi : i ∈ le) :
    ∀ p ∈ f.layout, i ∈ p.2 → p = (e, le) := by
  intro p hp hip
  have hmem := lookupA_mem hle
  by_contra hne
  have hpair : List.Pairwise (fun p q : Nat × List Nat => List.Disjoint p.2 q.2) f.layout := by
    have h1 := (List.nodup_flatten.mp (by rwa [allInsts] at hin)).2
    rwa [List.pairwise_map] at h1
  have hdisj := hpair.forall
    (fun p q hpq => List.Disjoint.symm hpq) hp hmem hne
  exact hdisj hip hi

/-- C10: for every function whose layout contains no empty block (and whose
handles are well-formed: distinct block ids, globally distinct instruction
handles, cursor pointing into its block), `next_inst_ret_prev` never hits
the `expect("no inst")` panic — a next block always has a first instruction
— and each cursor mutator (`RemoveInst`, `ReplaceInstWithConst`,
`ReplaceInstWithTrap`) preserves the no-empty-block precondition,
`RemoveInst` by removing a block in the same mutation step in which it
becomes empty. -/
theorem c10_cursor_mutators_no_empty_blocks (f : Function) (e i : Nat)
    (hne : no_empty_blocks f = true) (hbl : f.ebbs.Nodup)
    (hin : (allInsts f).Nodup) (hmem : i ∈ f.ebbInsts e) :
    next_inst_ret_prev f e i ≠ .panicked
    ∧ (∀ st f2 m stat, RemoveInst.mutate ⟨e, i⟩ f = .produced st f2 m stat →
        no_empty_blocks f2 = true)
    ∧ (∀ st f2 m stat, ReplaceInstWithConst.mutate ⟨e, i⟩ f = .produced st f2 m stat →
        no_empty_blocks f2 = true)
    ∧ (∀ st f2 m stat, ReplaceInstWithTrap.mutate ⟨e, i⟩ f = .produced st f2 m stat →
        no_empty_blocks f2 = true) := by
  obtain ⟨le, hle⟩ : ∃ le, lookupA f.layout e = some le := by
    rw [Function.ebbInsts] at hmem
    cases hc : lookupA f.layout e with
    | none => rw [hc] at hmem; simp at hmem
    | some l => exact ⟨l, rfl⟩
  have hile : i ∈ le := by
    rw [Function.ebbInsts, hle] at hmem
    simpa using hmem
  have huniq := unique_containing_entry hin hle hile
  -- every entry of (f.remove_inst i).layout is nonempty or is the erased e-entry
  have hD : ∀ q ∈ (f.remove_inst i).layout, q.2 ≠ [] ∨ q = (e, eraseFirstNat le i) := by
    intro q hq
    rcases List.mem_map.mp hq with ⟨p, hp, hpq⟩
    by_cases hip : i ∈ p.2
    · right
      rw [← hpq, huniq p hp hip]
    · left
      rw [← hpq]
      show eraseFirstNat p.2 i ≠ []
      rw [eraseFirstNat_of_not_mem hip]
      exact (no_empty_blocks_iff f).mp hne p hp
  have hinsts_e : (f.remove_inst i).ebbInsts e = eraseFirstNat le i := by
    rw [ebbInsts_remove_inst, Function.ebbInsts, hle]
    rfl
  refine ⟨?_, ?_, ?_, ?_⟩
  · intro hp
    rw [next_inst_ret_prev] at hp
    cases hni : f.next_inst i with
    | some x => rw [hni] at hp; cases hp
    | none =>
      simp only [hni] at hp
      cases hnb : f.next_ebb e with
      | none => rw [hnb] at hp; cases hp
      | some ne =>
        simp only [hnb] at hp
        cases hfi : f.first_inst ne with
        | some x => rw [hfi] at hp; cases hp
        | none =>
          obtain ⟨lne, hlne⟩ := lookupA_isSome_of_mem_keys
            (show ne ∈ f.layout.map (·.1) from nextEbbGo_mem hnb)
          have hlne_mem := lookupA_mem hlne
          have hlne_ne : lne ≠ [] := (no_empty_blocks_iff f).mp hne (ne, lne) hlne_mem
          rw [Function.first_inst, Function.ebbInsts, hlne] at hfi
          simp only [Option.getD_some] at hfi
          exact hlne_ne (List.head?_eq_none_iff.mp hfi)
  · intro st f2 m stat h
    rw [RemoveInst.mutate] at h
    cases hn : next_inst_ret_prev f e i with
    | atEnd => rw [hn] at h; cases h
    | panicked => rw [hn] at h; cases h
    | next ne ni =>
      simp only [hn] at h
      by_cases hE : ((f.remove_inst i).ebbInsts e).isEmpty
      · rw [if_pos hE] at h
        injection h with h1 h2 h3 h4
        rw [← h2]
        rw [no_empty_blocks_iff]
        intro q hq
        have hq1 : q ∈ (f.remove_inst i).layout := eraseA_subset hq
        rcases hD q hq1 with hq2 | hq2
        · exact hq2
        · exfalso
          have hkeys : ((f.remove_inst i).layout.map (·.1)).Nodup := by
            have := ebbs_remove_inst f i
            rw [Function.ebbs, Function.ebbs] at this
            rwa [this]
          exact not_mem_eraseA_of_nodup hkeys (hq2 ▸ hq)
      · rw [if_neg hE] at h
        injection h with h1 h2 h3 h4
        rw [← h2]
        rw [no_empty_blocks_iff]
        intro q hq
        rcases hD q hq with hq2 | hq2
        · exact hq2
        · rw [hq2]
          show eraseFirstNat le i ≠ []
          intro hc
          apply hE
          rw [hinsts_e, hc]
          rfl
  · intro st f2 m stat h
    rw [ReplaceInstWithConst.mutate] at h
    cases hn : next_inst_ret_prev f e i with
    | atEnd => rw [hn] at h; cases h
    | panicked => rw [hn] at h; cases h
    | next ne ni =>
      simp only [hn] at h
      cases hd : f.dataOf i with
      | none => simp only [hd] at h; cases h
      | some d =>
        simp only [hd] at h
        by_cases hskip : (f.inst_results i).length = 0 ∨ d.opcode = .iconst
            ∨ d.opcode = .f32const ∨ d.opcode = .f64const
        · rw [if_pos hskip] at h
          injection h with h1 h2 h3 h4
          rw [← h2]
          exact hne
        · rw [if_neg hskip] at h
          cases hr : f.inst_results i with
          | nil =>
            rw [hr] at h
            injection h with h1 h2 h3 h4
            rw [← h2]
            exact hne
          | cons r rtl =>
            cases rtl with
            | nil =>
              rw [hr] at h
              injection h with h1 h2 h3 h4
              rw [← h2]
              exact hne
            | cons r2 rtl2 =>
              rw [hr] at h
              injection h with h1 h2 h3 h4
              rw [← h2]
              rw [no_empty_blocks_iff]
              intro q hq
              have hlay : (replaceMulti f i (r :: r2 :: rtl2)).layout =
                  f.layout.map (fun b => (b.1, replaceOccurrence b.2 i
                    ((List.range (r :: r2 :: rtl2).length).map
                      (fun k => f.nextInst + k)))) := by
                show (((((List.range (r :: r2 :: rtl2).length).map
                    (fun k => f.nextInst + k)).zip (r :: r2 :: rtl2)).foldl _
                    (f.clear_results i)).layout.map _) = _
                rw [layout_foldl_step (Nat × Nat)
                  (fun g p => (g.setData p.1 (const_for_type (f.value_type p.2)).1).setResults
                    p.1 [p.2])
                  (fun g b => rfl)]
                rfl
              rw [hlay] at hq
              rcases List.mem_map.mp hq with ⟨p, hp, hpq⟩
              rw [← hpq]
              exact replaceOccurrence_ne_nil ((no_empty_blocks_iff f).mp hne p hp) (by simp)
  · intro st f2 m stat h
    rw [ReplaceInstWithTrap.mutate] at h
    cases hn : next_inst_ret_prev f e i with
    | atEnd => rw [hn] at h; cases h
    | panicked => rw [hn] at h; cases h
    | next ne ni =>
      simp only [hn] at h
      cases hd : f.dataOf i with
      | none => simp only [hd] at h; cases h
      | some d =>
        simp only [hd] at h
        by_cases ht : d.opcode = .trapOp
        · rw [if_pos ht] at h
          injection h with h1 h2 h3 h4
          rw [← h2]
          exact hne
        · rw [if_neg ht] at h
          injection h with h1 h2 h3 h4
          rw [← h2]
          exact hne

/-- C10 witness: the theorem applied to `c2Input` at its initial cursor. -/
theorem c10_witness :
    next_inst_ret_prev c2Input 0 1 ≠ .panicked :=
  (c10_cursor_mutators_no_empty_blocks c2Input 0 1 (by decide) (by decide) (by decide)
    (by decide)).1

/-! ### More association-list lemmas (for C6 and C7) -/

theorem lookupA_setA_self {α : Type} (l : List (Nat × α)) (k : Nat) (v : α) :
    lookupA (setA l k v) k = some v := by
  induction l with
  | nil => rw [setA, lookupA, if_pos rfl]
  | cons p rest ih =>
    rw [setA]
    by_cases hp : p.1 = k
    · rw [if_pos hp, lookupA, if_pos rfl]
    · rw [if_neg hp, lookupA, if_neg hp, ih]

theorem lookupA_setA_ne {α : Type} (l : List (Nat × α)) (k k2 : Nat) (v : α)
    (h : k2 ≠ k) : lookupA (setA l k v) k2 = lookupA l k2 := by
  induction l with
  | nil =>
    show lookupA [(k, v)] k2 = none
    rw [lookupA, if_neg (show ¬(k, v).1 = k2 from fun hc => h (show k = k2 from hc).symm)]
    rfl
  | cons p rest ih =>
    rw [setA]
    by_cases hp : p.1 = k
    · rw [if_pos hp, lookupA, lookupA,
        if_neg (show ¬(k, v).1 = k2 from fun hc => h (show k = k2 from hc).symm),
        if_neg (show ¬p.1 = k2 from fun hc => h (hp.symm.trans hc).symm)]
    · rw [if_neg hp, lookupA, lookupA]
      by_cases hpk : p.1 = k2
      · rw [if_pos hpk, if_pos hpk]
      · rw [if_neg hpk, if_neg hpk, ih]

theorem setA_mem {α : Type} {l : List (Nat × α)} {k : Nat} {v : α} {p : Nat × α}
    (h : p ∈ setA l k v) : p.1 = k ∨ p ∈ l := by
  induction l with
  | nil =>
    rw [setA] at h
    rcases List.mem_cons.mp h with h | h
    · exact Or.inl (by rw [h])
    · simp at h
  | cons q rest ih =>
    rw [setA] at h
    by_cases hq : q.1 = k
    · rw [if_pos hq] at h
      rcases List.mem_cons.mp h with h | h
      · exact Or.inl (by rw [h])
      · exact Or.inr (List.mem_cons_of_mem _ h)
    · rw [if_neg hq] at h
      rcases List.mem_cons.mp h with h | h
      · exact Or.inr (h ▸ List.mem_cons_self _ _)
      · rcases ih h with h2 | h2
        · exact Or.inl h2
        · exact Or.inr (List.mem_cons_of_mem _ h2)

theorem setA_fresh_append {α : Type} {l : List (Nat × α)} {k : Nat} (v : α)
    (h : ∀ p ∈ l, p.1 ≠ k) : setA l k v = l ++ [(k, v)] := by
  induction l with
  | nil => rfl
  | cons p rest ih =>
    rw [setA, if_neg (h p (List.mem_cons_self _ _)), List.cons_append,
      ih (fun q hq => h q (List.mem_cons_of_mem _ hq))]

theorem lookupA_append_right {α : Type} {l : List (Nat × α)} (l2 : List (Nat × α))
    {k : Nat} (h : ∀ p ∈ l, p.1 ≠ k) : lookupA (l ++ l2) k = lookupA l2 k := by
  induction l with
  | nil => rfl
  | cons p rest ih =>
    rw [List.cons_append, lookupA, if_neg (h p (List.mem_cons_self _ _)),
      ih (fun q hq => h q (List.mem_cons_of_mem _ hq))]

theorem lookupA_append_left {α : Type} {l : List (Nat × α)} (l2 : List (Nat × α))
    {k : Nat} {v : α} (h : lookupA l k = some v) : lookupA (l ++ l2) k = some v := by
  induction l with
  | nil => cases h
  | cons p rest ih =>
    rw [List.cons_append, lookupA]
    by_cases hp : p.1 = k
    · rw [lookupA, if_pos hp] at h
      rw [if_pos hp]
      exact h
    · rw [lookupA, if_neg hp] at h
      rw [if_neg hp]
      exact ih h

theorem map_fst_eraseA {α : Type} (l : List (Nat × α)) (k : Nat) :
    (eraseA l k).map (·.1) = eraseFirstNat (l.map (·.1)) k := by
  induction l with
  | nil => rfl
  | cons p rest ih =>
    rw [eraseA, List.map_cons, eraseFirstNat]
    by_cases hp : p.1 = k
    · rw [if_pos hp, if_pos hp]
    · rw [if_neg hp, if_neg hp, List.map_cons, ih]

theorem cfgPreds_mem_aux (f : Function) (e P B : Nat) :
    ∀ l : List (Nat × List Nat),
      (P, B) ∈ l.foldr (fun b acc =>
        (b.2.filter (fun i =>
          decide ((f.dataOf i).bind InstructionData.branchDestination = some e))).map
            (fun i => (b.1, i)) ++ acc) [] →
      ∃ lp, (P, lp) ∈ l ∧ B ∈ lp := by
  intro l
  induction l with
  | nil => intro h; simp at h
  | cons b rest ih =>
    intro h
    rw [List.foldr_cons] at h
    rcases List.mem_append.mp h with h | h
    · rcases List.mem_map.mp h with ⟨j, hj, hjP⟩
      obtain ⟨h1, h2⟩ : b.1 = P ∧ j = B := by
        injection hjP with h1 h2
        exact ⟨h1, h2⟩
      refine ⟨b.2, ⟨?_, h2 ▸ List.mem_of_mem_filter hj⟩⟩
      rw [← h1]
      obtain ⟨b1, b2⟩ := b
      exact List.mem_cons_self _ _
    · rcases ih h with ⟨lp, hlp, hB⟩
      exact ⟨lp, List.mem_cons_of_mem _ hlp, hB⟩

theorem cfgPreds_mem {f : Function} {e P B : Nat} (h : (P, B) ∈ cfgPreds f e) :
    ∃ lp, (P, lp) ∈ f.layout ∧ B ∈ lp :=
  cfgPreds_mem_aux f e P B f.layout h

/-! ### Claim C6 -/

theorem replaceOccurrence_not_mem {l : List Nat} {i : Nat} {new : List Nat}
    (h : i ∉ new) : i ∉ replaceOccurrence l i new := by
  induction l with
  | nil => simp [replaceOccurrence]
  | cons a rest ih =>
    rw [replaceOccurrence]
    intro hc
    rcases List.mem_append.mp hc with hc | hc
    · by_cases ha : a = i
      · rw [if_pos ha] at hc
        exact h hc
      · rw [if_neg ha] at hc
        rcases List.mem_cons.mp hc with hc | hc
        · exact ha hc.symm
        · simp at hc
    · exact ih hc

theorem foldConstPairs_spec (f : Function) :
    ∀ (pairs : List (Nat × Nat)) (g : Function),
      (∀ q ∈ pairs, (∀ p ∈ g.instData, p.1 ≠ q.1) ∧ (∀ p ∈ g.results, p.1 ≠ q.1)) →
      (pairs.map Prod.fst).Nodup →
      (pairs.foldl (fun g p =>
          (g.setData p.1 (const_for_type (f.value_type p.2)).1).setResults p.1 [p.2]) g).instData
        = g.instData ++ pairs.map (fun q => (q.1, (const_for_type (f.value_type q.2)).1))
      ∧ (pairs.foldl (fun g p =>
          (g.setData p.1 (const_for_type (f.value_type p.2)).1).setResults p.1 [p.2]) g).results
        = g.results ++ pairs.map (fun q => (q.1, [q.2])) := by
  intro pairs
  induction pairs with
  | nil =>
    intro g hf hnd
    exact ⟨(List.append_nil _).symm, (List.append_nil _).symm⟩
  | cons q rest ih =>
    intro g hf hnd
    rw [List.map_cons, List.nodup_cons] at hnd
    rw [List.foldl_cons]
    have hd1 : ((g.setData q.1 (const_for_type (f.value_type q.2)).1).setResults
        q.1 [q.2]).instData
        = g.instData ++ [(q.1, (const_for_type (f.value_type q.2)).1)] := by
      show setA g.instData q.1 (const_for_type (f.value_type q.2)).1 = _
      exact setA_fresh_append _ (hf q (List.mem_cons_self _ _)).1
    have hr1 : ((g.setData q.1 (const_for_type (f.value_type q.2)).1).setResults
        q.1 [q.2]).results = g.results ++ [(q.1, [q.2])] := by
      show setA g.results q.1 [q.2] = _
      exact setA_fresh_append _ (hf q (List.mem_cons_self _ _)).2
    have hf1 : ∀ q2 ∈ rest,
        (∀ p ∈ ((g.setData q.1 (const_for_type (f.value_type q.2)).1).setResults
          q.1 [q.2]).instData, p.1 ≠ q2.1)
        ∧ (∀ p ∈ ((g.setData q.1 (const_for_type (f.value_type q.2)).1).setResults
          q.1 [q.2]).results, p.1 ≠ q2.1) := by
      intro q2 hq2
      have hq2ne : q.1 ≠ q2.1 := by
        intro hc
        exact hnd.1 (by rw [hc]; exact List.mem_map.mpr ⟨q2, hq2, rfl⟩)
      constructor
      · intro p hp
        rw [hd1] at hp
        rcases List.mem_append.mp hp with hp | hp
        · exact (hf q2 (List.mem_cons_of_mem _ hq2)).1 p hp
        · rcases List.mem_cons.mp hp with hp | hp
          · rw [hp]
            exact hq2ne
          · simp at hp
      · intro p hp
        rw [hr1] at hp
        rcases List.mem_append.mp hp with hp | hp
        · exact (hf q2 (List.mem_cons_of_mem _ hq2)).2 p hp
        · rcases List.mem_cons.mp hp with hp | hp
          · rw [hp]
            exact hq2ne
          · simp at hp
    obtain ⟨ihd, ihr⟩ := ih _ hf1 hnd.2
    constructor
    · rw [ihd, hd1, List.append_assoc]
      rfl
    · rw [ihr, hr1, List.append_assoc]
      rfl

theorem newIds_nodup (base len : Nat) :
    ((List.range len).map (fun k => base + k)).Nodup :=
  List.Nodup.map (fun a b h => Nat.add_left_cancel h) (List.nodup_range len)

/-- C6: `ReplaceInstWithConst::mutate` at the current cursor instruction
`I = i`, for a cursor that advances to `(ne, ni)`:

* `Skip` (with the function unchanged) when `I` has zero results or its
  opcode is already `iconst`/`f32const`/`f64const`;
* with exactly one result `r` of type `T`, an in-place replacement by
  `f32const` if `T = F32`, `f64const` if `T = F64`, else `iconst T 0`,
  preserving the result value identity, with status `Changed`;
* with two or more results, the results are detached, `I` is removed from
  the layout, and one constant instruction per result is inserted, each
  rebinding exactly that result value, with status `ExpandedOrShrunk`.

The freshness hypotheses say the dfg's instruction handles are below the
`nextInst` allocator — an invariant of the real `PrimaryMap`-based dfg. -/
theorem c6_replace_inst_with_const_cases (f : Function) (e i ne ni : Nat)
    (hn : next_inst_ret_prev f e i = .next ne ni)
    (d : InstructionData) (hd : f.dataOf i = some d)
    (hfreshD : ∀ p ∈ f.instData, p.1 < f.nextInst)
    (hfreshR : ∀ p ∈ f.results, p.1 < f.nextInst) :
    (∀ ty : Ty,
      (ty = .F32 → const_for_type ty = (.F32const, "f32const"))
      ∧ (ty = .F64 → const_for_type ty = (.F64const, "f64const"))
      ∧ (ty ≠ .F32 → ty ≠ .F64 → const_for_type ty = (.Iconst ty 0, "iconst")))
    ∧ (f.inst_results i = [] ∨ d.opcode = .iconst ∨ d.opcode = .f32const
        ∨ d.opcode = .f64const →
        ReplaceInstWithConst.mutate ⟨e, i⟩ f = .produced ⟨ne, ni⟩ f "" .Skip)
    ∧ (∀ r, f.inst_results i = [r] →
        ¬(d.opcode = .iconst ∨ d.opcode = .f32const ∨ d.opcode = .f64const) →
        ∃ msg, ReplaceInstWithConst.mutate ⟨e, i⟩ f
            = .produced ⟨ne, ni⟩ (replaceSingle f i (f.value_type r)) msg .Changed
          ∧ (replaceSingle f i (f.value_type r)).dataOf i
              = some (const_for_type (f.value_type r)).1
          ∧ (replaceSingle f i (f.value_type r)).inst_results i = [r])
    ∧ (∀ r1 r2 rtl, f.inst_results i = r1 :: r2 :: rtl →
        ¬(d.opcode = .iconst ∨ d.opcode = .f32const ∨ d.opcode = .f64const) →
        ∃ msg, ReplaceInstWithConst.mutate ⟨e, i⟩ f
            = .produced ⟨ne, ni⟩ (replaceMulti f i (r1 :: r2 :: rtl)) msg .ExpandedOrShrinked
          ∧ (replaceMulti f i (r1 :: r2 :: rtl)).inst_results i = []
          ∧ (∀ b ∈ (replaceMulti f i (r1 :: r2 :: rtl)).layout, i ∉ b.2)
          ∧ (replaceMulti f i (r1 :: r2 :: rtl)).instData
              = f.instData
                ++ (((List.range (r1 :: r2 :: rtl).length).map
                    (fun k => f.nextInst + k)).zip (r1 :: r2 :: rtl)).map
                  (fun q => (q.1, (const_for_type (f.value_type q.2)).1))
          ∧ (replaceMulti f i (r1 :: r2 :: rtl)).results
              = setA f.results i []
                ++ (((List.range (r1 :: r2 :: rtl).length).map
                    (fun k => f.nextInst + k)).zip (r1 :: r2 :: rtl)).map
                  (fun q => (q.1, [q.2]))) := by
  have hconst : ∀ ty : Ty,
      (ty = .F32 → const_for_type ty = (.F32const, "f32const"))
      ∧ (ty = .F64 → const_for_type ty = (.F64const, "f64const"))
      ∧ (ty ≠ .F32 → ty ≠ .F64 → const_for_type ty = (.Iconst ty 0, "iconst")) := by
    intro ty
    refine ⟨fun h => by rw [const_for_type, if_pos h], fun h => ?_, fun h1 h2 => ?_⟩
    · rw [const_for_type, if_neg (by rw [h]; intro hc; cases hc), if_pos h]
    · rw [const_for_type, if_neg h1, if_neg h2]
  refine ⟨hconst, ?_, ?_, ?_⟩
  · intro hskip
    rw [ReplaceInstWithConst.mutate]
    simp only [hn, hd]
    rcases hskip with hskip | hskip | hskip | hskip
    · rw [if_pos (Or.inl (by rw [hskip]; rfl))]
    · rw [if_pos (Or.inr (Or.inl hskip))]
    · rw [if_pos (Or.inr (Or.inr (Or.inl hskip)))]
    · rw [if_pos (Or.inr (Or.inr (Or.inr hskip)))]
  · intro r hr hnotc
    refine ⟨"Replace inst inst" ++ Nat.repr i ++ " with "
      ++ (const_for_type (f.value_type r)).2 ++ ".", ?_, ?_, ?_⟩
    · rw [ReplaceInstWithConst.mutate]
      simp only [hn, hd, hr]
      rw [if_neg (by
        intro hc
        rcases hc with hc | hc
        · simp at hc
        · exact hnotc hc)]
    · show lookupA (setA f.instData i (const_for_type (f.value_type r)).1) i = _
      rw [lookupA_setA_self]
    · show f.inst_results i = [r]
      exact hr
  · intro r1 r2 rtl hr hnotc
    have hi_lt : i < f.nextInst := hfreshD (i, d) (lookupA_mem hd)
    have hfresh_pairs : ∀ q ∈ (((List.range (r1 :: r2 :: rtl).length).map
        (fun k => f.nextInst + k)).zip (r1 :: r2 :: rtl)),
        (∀ p ∈ (f.clear_results i).instData, p.1 ≠ q.1)
        ∧ (∀ p ∈ (f.clear_results i).results, p.1 ≠ q.1) := by
      intro q hq
      have hq1 : f.nextInst ≤ q.1 := by
        have hmem := (List.of_mem_zip hq).1
        rcases List.mem_map.mp hmem with ⟨k, hk, hkq⟩
        rw [← hkq]
        exact Nat.le_add_right _ _
      constructor
      · intro p hp
        have := hfreshD p hp
        omega
      · intro p hp
        rcases setA_mem hp with hp2 | hp2
        · omega
        · have := hfreshR p hp2
          omega
    have hnd_pairs : ((((List.range (r1 :: r2 :: rtl).length).map
        (fun k => f.nextInst + k)).zip (r1 :: r2 :: rtl)).map Prod.fst).Nodup := by
      rw [List.map_fst_zip _ _ (by rw [List.length_map, List.length_range])]
      exact newIds_nodup f.nextInst (r1 :: r2 :: rtl).length
    obtain ⟨hdata, hres⟩ := foldConstPairs_spec f _ (f.clear_results i) hfresh_pairs hnd_pairs
    refine ⟨"Replace inst inst" ++ Nat.repr i ++ " with "
      ++ String.intercalate " / "
        ((r1 :: r2 :: rtl).map (fun r => (const_for_type (f.value_type r)).2)),
      ?_, ?_, ?_, ?_, ?_⟩
    · rw [ReplaceInstWithConst.mutate]
      simp only [hn, hd, hr]
      rw [if_neg (by
        intro hc
        rcases hc with hc | hc
        · simp at hc
        · exact hnotc hc)]
    · show (lookupA (replaceMulti f i (r1 :: r2 :: rtl)).results i).getD [] = []
      show (lookupA ((((List.range (r1 :: r2 :: rtl).length).map
          (fun k => f.nextInst + k)).zip (r1 :: r2 :: rtl)).foldl _
          (f.clear_results i)).results i).getD [] = []
      rw [hres]
      rw [lookupA_append_left _ (show lookupA (f.clear_results i).results i = some [] from
        lookupA_setA_self f.results i [])]
      rfl
    · intro b hb
      have hlay : (replaceMulti f i (r1 :: r2 :: rtl)).layout =
          (f.clear_results i).layout.map (fun b2 => (b2.1, replaceOccurrence b2.2 i
            ((List.range (r1 :: r2 :: rtl).length).map (fun k => f.nextInst + k)))) := by
        show ((((List.range (r1 :: r2 :: rtl).length).map
            (fun k => f.nextInst + k)).zip (r1 :: r2 :: rtl)).foldl _
            (f.clear_results i)).layout.map _ = _
        rw [layout_foldl_step (Nat × Nat)
          (fun g p => (g.setData p.1 (const_for_type (f.value_type p.2)).1).setResults
            p.1 [p.2])
          (fun g b => rfl)]
      rw [hlay] at hb
      rcases List.mem_map.mp hb with ⟨p, hp, hpb⟩
      rw [← hpb]
      apply replaceOccurrence_not_mem
      intro hc
      rcases List.mem_map.mp hc with ⟨k, hk, hkc⟩
      omega
    · show ((((List.range (r1 :: r2 :: rtl).length).map
        (fun k => f.nextInst + k)).zip (r1 :: r2 :: rtl)).foldl _
        (f.clear_results i)).instData = _
      rw [hdata]
      rfl
    · show ((((List.range (r1 :: r2 :: rtl).length).map
        (fun k => f.nextInst + k)).zip (r1 :: r2 :: rtl)).foldl _
        (f.clear_results i)).results = _
      rw [hres]
      rfl

/-- C6 witness: the multi-result case at the two-result instruction of
`c3Input`. -/
theorem c6_witness :
    ∃ msg, ReplaceInstWithConst.mutate ⟨0, 1⟩ c3Input
        = .produced ⟨0, 2⟩ (replaceMulti c3Input 1 [10, 11]) msg .ExpandedOrShrinked :=
  ((c6_replace_inst_with_const_cases c3Input 0 1 0 2 rfl (.MultiAry 0 []) rfl
    (by decide) (by decide)).2.2.2 10 11 [] rfl (by decide)).elim
    (fun msg h => ⟨msg, h.1⟩)

/-! ### Claim C7 -/

theorem moveLoop_spec (src dst : Nat) (hsd : src ≠ dst) :
    ∀ (ls : List Nat) (g : Function) (ld : List Nat),
      lookupA g.layout src = some ls →
      lookupA g.layout dst = some ld →
      (∀ j ∈ ls, ∀ p ∈ g.layout, p.1 ≠ src → j ∉ p.2) →
      ls.Nodup →
      ∃ f3, moveLoop ls.length g src dst = some f3
        ∧ lookupA f3.layout dst = some (ld ++ ls)
        ∧ f3.valueAliases = g.valueAliases
        ∧ f3.ebbs = g.ebbs := by
  intro ls
  induction ls with
  | nil =>
    intro g ld hsrc hdst hdisj hnd
    refine ⟨g, ?_, by rw [hdst, List.append_nil], rfl, rfl⟩
    show moveLoop 0 g src dst = some g
    rw [moveLoop]
    have hfi : g.first_inst src = none := by
      rw [Function.first_inst, Function.ebbInsts, hsrc]
      rfl
    rw [hfi]
  | cons j tl ih =>
    intro g ld hsrc hdst hdisj hnd
    have hfi : g.first_inst src = some j := by
      rw [Function.first_inst, Function.ebbInsts, hsrc]
      rfl
    have hrem_src : lookupA (g.remove_inst j).layout src = some tl := by
      show lookupA (g.layout.map fun p => (p.1, eraseFirstNat p.2 j)) src = some tl
      rw [lookupA_map_val (fun l2 => eraseFirstNat l2 j) g.layout src, hsrc,
        Option.map_some', eraseFirstNat_cons_self]
    have hsrc' : lookupA ((g.remove_inst j).append_inst j dst).layout src = some tl := by
      show lookupA ((g.remove_inst j).layout.map
        fun p => if p.1 = dst then (p.1, p.2 ++ [j]) else p) src = some tl
      rw [lookupA_map_entry_ite (fun l2 => l2 ++ [j]) dst (g.remove_inst j).layout src,
        if_neg hsd, hrem_src]
    have hjld : j ∉ ld :=
      hdisj j (List.mem_cons_self _ _) (dst, ld) (lookupA_mem hdst) (fun hc => hsd hc.symm)
    have hrem_dst : lookupA (g.remove_inst j).layout dst = some ld := by
      show lookupA (g.layout.map fun p => (p.1, eraseFirstNat p.2 j)) dst = some ld
      rw [lookupA_map_val (fun l2 => eraseFirstNat l2 j) g.layout dst, hdst,
        Option.map_some', eraseFirstNat_of_not_mem hjld]
    have hdst' : lookupA ((g.remove_inst j).append_inst j dst).layout dst
        = some (ld ++ [j]) := by
      show lookupA ((g.remove_inst j).layout.map
        fun p => if p.1 = dst then (p.1, p.2 ++ [j]) else p) dst = some (ld ++ [j])
      rw [lookupA_map_entry_ite (fun l2 => l2 ++ [j]) dst (g.remove_inst j).layout dst,
        if_pos rfl, hrem_dst, Option.map_some']
    have hdisj' : ∀ j2 ∈ tl, ∀ p ∈ ((g.remove_inst j).append_inst j dst).layout,
        p.1 ≠ src → j2 ∉ p.2 := by
      intro j2 hj2 p hp hpne
      have hlay : ((g.remove_inst j).append_inst j dst).layout
          = (g.layout.map fun p0 => (p0.1, eraseFirstNat p0.2 j)).map
            (fun q => if q.1 = dst then (q.1, q.2 ++ [j]) else q) := rfl
      rw [hlay] at hp
      rcases List.mem_map.mp hp with ⟨q, hq, hqp⟩
      rcases List.mem_map.mp hq with ⟨p0, hp0, hp0q⟩
      have hq1 : q.1 = p0.1 := by rw [← hp0q]
      have hp1 : p.1 = p0.1 := by
        rw [← hqp]
        by_cases hqd : q.1 = dst
        · rw [if_pos hqd]
          exact hq1
        · rw [if_neg hqd]
          exact hq1
      have hp0ne : p0.1 ≠ src := fun hc => hpne (by rw [hp1, hc])
      intro hj2p
      by_cases hqd : q.1 = dst
      · rw [if_pos hqd] at hqp
        rw [← hqp] at hj2p
        rcases List.mem_append.mp hj2p with hja | hja
        · have hjp0 : j2 ∈ p0.2 := by
            have : j2 ∈ q.2 := hja
            rw [← hp0q] at this
            exact eraseFirstNat_subset this
          exact hdisj j2 (List.mem_cons_of_mem _ hj2) p0 hp0 hp0ne hjp0
        · rcases List.mem_cons.mp hja with hja | hja
          · exact (List.nodup_cons.mp hnd).1 (hja ▸ hj2)
          · simp at hja
      · rw [if_neg hqd] at hqp
        rw [← hqp] at hj2p
        have hjp0 : j2 ∈ p0.2 := by
          rw [← hp0q] at hj2p
          exact eraseFirstNat_subset hj2p
        exact hdisj j2 (List.mem_cons_of_mem _ hj2) p0 hp0 hp0ne hjp0
    obtain ⟨f3, h1, h2, h3, h4⟩ := ih ((g.remove_inst j).append_inst j dst) (ld ++ [j])
      hsrc' hdst' hdisj' (List.nodup_cons.mp hnd).2
    refine ⟨f3, ?_, ?_, ?_, ?_⟩
    · show moveLoop (tl.length + 1) g src dst = some f3
      rw [moveLoop]
      simp only [hfi]
      exact h1
    · rw [h2, List.append_assoc]
      rfl
    · rw [h3]
      rfl
    · rw [h4, ebbs_append_inst, ebbs_remove_inst]

theorem aliasFold_preserve (k : Nat) :
    ∀ (pairs : List (Nat × Nat)) (g : Function),
      (∀ pa ∈ pairs, pa.1 ≠ k) →
      lookupA (pairs.foldl (fun g pa =>
        if pa.1 ≠ pa.2 then g.change_to_alias pa.1 pa.2 else g) g).valueAliases k
        = lookupA g.valueAliases k := by
  intro pairs
  induction pairs with
  | nil => intro g hne; rfl
  | cons q rest ih =>
    intro g hne
    rw [List.foldl_cons]
    by_cases hq : q.1 ≠ q.2
    · rw [if_pos hq]
      rw [ih _ (fun pa hpa => hne pa (List.mem_cons_of_mem _ hpa))]
      show lookupA (setA g.valueAliases q.1 q.2) k = _
      exact lookupA_setA_ne _ _ _ _ (fun hc => hne q (List.mem_cons_self _ _) hc.symm)
    · rw [if_neg hq]
      exact ih _ (fun pa hpa => hne pa (List.mem_cons_of_mem _ hpa))

theorem aliasFold_records :
    ∀ (pairs : List (Nat × Nat)) (g : Function),
      (pairs.map Prod.fst).Nodup →
      ∀ pa ∈ pairs, pa.1 ≠ pa.2 →
        lookupA (pairs.foldl (fun g pa =>
          if pa.1 ≠ pa.2 then g.change_to_alias pa.1 pa.2 else g) g).valueAliases pa.1
          = some pa.2 := by
  intro pairs
  induction pairs with
  | nil => intro g hnd pa hpa; simp at hpa
  | cons q rest ih =>
    intro g hnd pa hpa hne
    rw [List.map_cons, List.nodup_cons] at hnd
    rw [List.foldl_cons]
    rcases List.mem_cons.mp hpa with hpa | hpa
    · subst hpa
      rw [if_pos hne]
      rw [aliasFold_preserve pa.1 rest _ (fun pa2 hpa2 hc => hnd.1
        (by rw [← hc]; exact List.mem_map.mpr ⟨pa2, hpa2, rfl⟩))]
      show lookupA (setA g.valueAliases pa.1 pa.2) pa.1 = some pa.2
      exact lookupA_setA_self _ _ _
    · by_cases hq : q.1 ≠ q.2
      · rw [if_pos hq]
        exact ih _ hnd.2 pa hpa hne
      · rw [if_neg hq]
        exact ih _ hnd.2 pa hpa hne

/-- C7 (amended): for a cursor advancing to candidate block `e`:

* if `e` does not have exactly one control-flow predecessor, `mutate`
  returns `Skip` with the function unchanged (and the advanced cursor);
* if `e` has the unique predecessor `(P, B)` **with `P ≠ e`** (and, as the
  verifier guarantees, matching parameter/argument counts), `mutate` records
  a value alias `param → arg` for each non-identical pair, removes the
  branch `B` from `P`, moves the instructions of `e` to the end of `P` in
  their original order, removes `e`, and records `P` in `prev_ebb`;
* `did_crash` then resets the cursor back to the recorded `P`.

When `P = e` (a block that is its own unique predecessor) the move loop of
`mutate` does not terminate — see the counterexample. -/
theorem c7_merge_blocks_cases (f : Function) (s : MergeBlocks) (e : Nat)
    (hn : f.next_ebb s.ebb = some e)
    (hbl : f.ebbs.Nodup) (hin : (allInsts f).Nodup) :
    ((cfgPreds f e).length ≠ 1 →
      MergeBlocks.mutate s f
        = .produced ⟨e, s.prev_ebb⟩ f ("did nothing for ebb" ++ Nat.repr e) .Skip)
    ∧ (∀ P B, cfgPreds f e = [(P, B)] → P ≠ e →
        (f.ebb_params e).length = (f.inst_variable_args B).length →
        (f.ebb_params e).Nodup →
        ∃ f3 : Function, MergeBlocks.mutate s f
            = .produced ⟨e, some P⟩ (f3.remove_ebb e)
              ("merged ebb" ++ Nat.repr P ++ " and ebb" ++ Nat.repr e)
              .ExpandedOrShrinked
          ∧ (∀ pa ∈ (f.ebb_params e).zip (f.inst_variable_args B), pa.1 ≠ pa.2 →
              lookupA (f3.remove_ebb e).valueAliases pa.1 = some pa.2)
          ∧ (f3.remove_ebb e).ebbInsts P
              = eraseFirstNat (f.ebbInsts P) B ++ f.ebbInsts e
          ∧ (f3.remove_ebb e).ebbs = eraseFirstNat f.ebbs e)
    ∧ (∀ (st : MergeBlocks) (P : Nat), st.prev_ebb = some P →
        st.did_crash = some ⟨P, some P⟩) := by
  refine ⟨?_, ?_, ?_⟩
  · intro hp
    rw [MergeBlocks.mutate]
    simp only [hn]
    rw [if_pos hp]
  · intro P B hps hPe hleneq hpnd
    -- the state of the function when the move loop starts
    have hfold_layout : (((f.ebb_params e).zip (f.inst_variable_args B)).foldl
        (fun g pa => if pa.1 ≠ pa.2 then g.change_to_alias pa.1 pa.2 else g)
        (f.detach_ebb_params e)).layout = f.layout := by
      rw [layout_foldl_step (Nat × Nat)
        (fun g pa => if pa.1 ≠ pa.2 then g.change_to_alias pa.1 pa.2 else g)
        (fun g b => by
          show (if b.1 ≠ b.2 then g.change_to_alias b.1 b.2 else g).layout = g.layout
          split <;> rfl)]
      rfl
    obtain ⟨le2, hle2⟩ : ∃ le2, lookupA f.layout e = some le2 :=
      lookupA_isSome_of_mem_keys (show e ∈ f.layout.map (·.1) from nextEbbGo_mem hn)
    obtain ⟨lp, hlpmem, hBlp⟩ : ∃ lp, (P, lp) ∈ f.layout ∧ B ∈ lp :=
      cfgPreds_mem (show (P, B) ∈ cfgPreds f e by rw [hps]; exact List.mem_cons_self _ _)
    have hlpP : lookupA f.layout P = some lp :=
      lookupA_unique_of_nodup (show (f.layout.map (·.1)).Nodup from hbl) hlpmem
    have hBuniq := unique_containing_entry hin hlpP hBlp
    have hBle2 : B ∉ le2 := by
      intro hc
      have := hBuniq (e, le2) (lookupA_mem hle2) hc
      exact hPe (congrArg Prod.fst this).symm
    set fx := (((f.ebb_params e).zip (f.inst_variable_args B)).foldl
        (fun g pa => if pa.1 ≠ pa.2 then g.change_to_alias pa.1 pa.2 else g)
        (f.detach_ebb_params e)).remove_inst B with hfx
    have hfx_src : lookupA fx.layout e = some le2 := by
      rw [hfx]
      show lookupA ((((f.ebb_params e).zip (f.inst_variable_args B)).foldl
        (fun g pa => if pa.1 ≠ pa.2 then g.change_to_alias pa.1 pa.2 else g)
        (f.detach_ebb_params e)).layout.map fun p => (p.1, eraseFirstNat p.2 B)) e = _
      rw [hfold_layout, lookupA_map_val (fun l2 => eraseFirstNat l2 B) f.layout e, hle2,
        Option.map_some', eraseFirstNat_of_not_mem hBle2]
    have hfx_dst : lookupA fx.layout P = some (eraseFirstNat lp B) := by
      rw [hfx]
      show lookupA ((((f.ebb_params e).zip (f.inst_variable_args B)).foldl
        (fun g pa => if pa.1 ≠ pa.2 then g.change_to_alias pa.1 pa.2 else g)
        (f.detach_ebb_params e)).layout.map fun p => (p.1, eraseFirstNat p.2 B)) P = _
      rw [hfold_layout, lookupA_map_val (fun l2 => eraseFirstNat l2 B) f.layout P, hlpP,
        Option.map_some']
    have hfx_disj : ∀ j ∈ le2, ∀ p ∈ fx.layout, p.1 ≠ e → j ∉ p.2 := by
      intro j hj p hp hpne
      have hlay : fx.layout = (((f.ebb_params e).zip (f.inst_variable_args B)).foldl
          (fun g pa => if pa.1 ≠ pa.2 then g.change_to_alias pa.1 pa.2 else g)
          (f.detach_ebb_params e)).layout.map (fun p => (p.1, eraseFirstNat p.2 B)) := by
        rw [hfx]
        rfl
      rw [hlay, hfold_layout] at hp
      rcases List.mem_map.mp hp with ⟨p0, hp0, hp0p⟩
      intro hjp
      have hjp0 : j ∈ p0.2 := by
        rw [← hp0p] at hjp
        exact eraseFirstNat_subset hjp
      have := unique_containing_entry hin hle2 hj p0 hp0 hjp0
      apply hpne
      rw [← hp0p, this]
    have hle2nd : le2.Nodup := by
      have h1 := (List.nodup_flatten.mp (by rwa [allInsts] at hin)).1
      exact h1 le2 (List.mem_map.mpr ⟨(e, le2), lookupA_mem hle2, rfl⟩)
    obtain ⟨f3, h1, h2, h3, h4⟩ := moveLoop_spec e P (fun hc => hPe hc.symm) le2 fx
      (eraseFirstNat lp B) hfx_src hfx_dst hfx_disj hle2nd
    refine ⟨f3, ?_, ?_, ?_, ?_⟩
    · rw [MergeBlocks.mutate]
      simp only [hn, hps]
      rw [if_neg (fun hc => hc rfl)]
      rw [if_neg (fun hc => hc hleneq)]
      rw [← hfx]
      have hlen2 : (fx.ebbInsts e).length = le2.length := by
        rw [Function.ebbInsts, hfx_src]
        rfl
      rw [hlen2]
      simp only [h1]
    · intro pa hpa hne
      have : (f3.remove_ebb e).valueAliases = f3.valueAliases := rfl
      rw [this, h3, hfx]
      show lookupA (((f.ebb_params e).zip (f.inst_variable_args B)).foldl
        (fun g pa => if pa.1 ≠ pa.2 then g.change_to_alias pa.1 pa.2 else g)
        (f.detach_ebb_params e)).valueAliases pa.1 = some pa.2
      refine aliasFold_records _ _ ?_ pa hpa hne
      rw [List.map_fst_zip _ _ (le_of_eq hleneq)]
      exact hpnd
    · show ((lookupA (eraseA f3.layout e) P).getD []) = _
      rw [lookupA_eraseA_ne hPe, h2]
      rw [Function.ebbInsts, Function.ebbInsts, hlpP, hle2]
      rfl
    · show (eraseA f3.layout e).map (·.1) = _
      rw [map_fst_eraseA]
      have : f3.layout.map (·.1) = f.ebbs := by
        have h5 : f3.ebbs = fx.ebbs := h4
        have h6 : fx.ebbs = f.ebbs := by
          rw [hfx, ebbs_remove_inst, Function.ebbs, hfold_layout]
          rfl
        rw [show f3.layout.map (·.1) = f3.ebbs from rfl, h5, h6]
      rw [this]
  · intro st P hst
    rw [MergeBlocks.did_crash, hst]
    rfl

/-- C7 counterexample: in `c4Input` the block `ebb1` has exactly one
control-flow predecessor — itself.  The claim's description of the
unique-predecessor case promises a merged candidate; instead
`MergeBlocks::mutate` never terminates (the move loop shuttles the
instructions of `ebb1` back into `ebb1`). -/
theorem c7_counterexample :
    cfgPreds c4Input 1 = [(1, 3)]
      ∧ MergeBlocks.mutate ⟨0, none⟩ c4Input = .diverge :=
  ⟨rfl, rfl⟩

/-- C7 witness: a genuine merge of `ebb1` into its unique predecessor
`ebb0` on `mergeableFunc`. -/
theorem c7_witness :
    ∃ f3 : Function, MergeBlocks.mutate ⟨0, none⟩ mergeableFunc
        = .produced ⟨1, some 0⟩ (f3.remove_ebb 1)
          ("merged ebb" ++ Nat.repr 0 ++ " and ebb" ++ Nat.repr 1) .ExpandedOrShrinked
      ∧ (∀ pa ∈ (mergeableFunc.ebb_params 1).zip (mergeableFunc.inst_variable_args 1),
          pa.1 ≠ pa.2 → lookupA (f3.remove_ebb 1).valueAliases pa.1 = some pa.2)
      ∧ (f3.remove_ebb 1).ebbInsts 0
          = eraseFirstNat (mergeableFunc.ebbInsts 0) 1 ++ mergeableFunc.ebbInsts 1
      ∧ (f3.remove_ebb 1).ebbs = eraseFirstNat mergeableFunc.ebbs 1 :=
  (c7_merge_blocks_cases mergeableFunc ⟨0, none⟩ 1 rfl (by decide) (by decide)).2.1
    0 1 rfl (by decide) rfl (by decide)

end Bugpoint
